import Mathlib

/-!
Verification of the cache-backed National Park Service scraping pipeline
(`proj2_nps.py`): a shallow embedding of its data model and operations,
with theorems checking the design-level claims against the code.

External collaborators are modelled explicitly:
* the `json` library (`json.dump(..., indent=4)` / `json.load`) as an
  executable encoder and recursive-descent parser over a JSON value type
  (numbers restricted to integers; floats are outside the model);
* `requests` + `BeautifulSoup` as an oracle from URLs to document trees,
  with `find` / `find_all` as pre-order searches over the tree;
* the cache file as an optional character list (absent file or contents).
-/

/-- JSON values as persisted in the cache file (integers only; the
repository never relies on float round-tripping). -/
inductive Json where
  | null : Json
  | bool (b : Bool) : Json
  | num (n : Int) : Json
  | str (s : String) : Json
  | arr (elems : List Json) : Json
  | obj (members : List (String × Json)) : Json

mutual

/-- Structural size of a JSON value, used as a parser fuel bound. -/
def jsize : Json → Nat
  | .arr xs => 1 + lsizeJ xs
  | .obj ms => 1 + msizeJ ms
  | _ => 1
termination_by structural j => j

def lsizeJ : List Json → Nat
  | [] => 1
  | x :: xs => 1 + jsize x + lsizeJ xs
termination_by structural xs => xs

def msizeJ : List (String × Json) → Nat
  | [] => 1
  | (_, v) :: ms => 1 + jsize v + msizeJ ms
termination_by structural ms => ms

end

/-! ### Encoder: model of `json.dump(obj, fobj, indent=4)` -/

/-- Digit character for a value below ten. -/
def digitChar (d : Nat) : Char := Char.ofNat (48 + d)

/-- Lower-case hexadecimal digit character. -/
def hexDigit (d : Nat) : Char :=
  if d < 10 then Char.ofNat (48 + d) else Char.ofNat (87 + d)

/-- Decimal digits of a positive number, most significant first,
prepended onto `acc`; `fuel` bounds the number of digits. -/
def encNatAux : Nat → Nat → List Char → List Char
  | 0, _, acc => acc
  | fuel + 1, n, acc =>
      if n = 0 then acc else encNatAux fuel (n / 10) (digitChar (n % 10) :: acc)

/-- Decimal rendering of a natural number. -/
def encNat (n : Nat) : List Char :=
  if n = 0 then ['0'] else encNatAux n n []

/-- Decimal rendering of an integer. -/
def encInt (n : Int) : List Char :=
  if n < 0 then '-' :: encNat n.natAbs else encNat n.natAbs

/-- JSON escape of one character: mandatory escapes plus `\u00XX` for
control characters, everything else literal. (Python also uses the short
forms `\n`, `\t`, ... for some controls; emitting the general `\u00XX`
form instead changes the bytes but not what `json.load` reads back.) -/
def escChar (c : Char) : List Char :=
  if c = '"' then ['\\', '"']
  else if c = '\\' then ['\\', '\\']
  else if c.toNat < 32 then
    ['\\', 'u', '0', '0', hexDigit (c.toNat / 16), hexDigit (c.toNat % 16)]
  else [c]

def escList : List Char → List Char
  | [] => []
  | c :: cs => escChar c ++ escList cs

/-- JSON string literal. -/
def encStr (s : String) : List Char := '"' :: (escList s.data ++ ['"'])

/-- Newline followed by `i` spaces: the whitespace `indent=4` emits. -/
def nlc (i : Nat) : List Char := '\n' :: List.replicate i ' '

mutual

/-- Serialisation of a JSON value at indentation level `i`, following the
layout of Python's `json.dump(..., indent=4)`. -/
def encVal : Nat → Json → List Char
  | _, .null => ['n', 'u', 'l', 'l']
  | _, .bool true => ['t', 'r', 'u', 'e']
  | _, .bool false => ['f', 'a', 'l', 's', 'e']
  | _, .num n => encInt n
  | _, .str s => encStr s
  | _, .arr [] => ['[', ']']
  | i, .arr (x :: xs) => '[' :: (nlc (i + 4) ++ encItems i (x :: xs))
  | _, .obj [] => ['{', '}']
  | i, .obj (m :: ms) => '{' :: (nlc (i + 4) ++ encMembers i (m :: ms))
termination_by structural _ j => j

/-- Comma/newline-separated array items, including the closing bracket. -/
def encItems : Nat → List Json → List Char
  | _, [] => []
  | i, [x] => encVal (i + 4) x ++ (nlc i ++ [']'])
  | i, x :: y :: ys => encVal (i + 4) x ++ (',' :: (nlc (i + 4) ++ encItems i (y :: ys)))
termination_by structural _ xs => xs

/-- Comma/newline-separated object members, including the closing brace. -/
def encMembers : Nat → List (String × Json) → List Char
  | _, [] => []
  | i, [(k, v)] => encStr k ++ (':' :: ' ' :: (encVal (i + 4) v ++ (nlc i ++ ['}'])))
  | i, (k, v) :: m :: ms =>
      encStr k ++ (':' :: ' ' :: (encVal (i + 4) v ++ (',' :: (nlc (i + 4) ++ encMembers i (m :: ms)))))
termination_by structural _ ms => ms

end

/-! ### Parser: model of `json.load` -/

def isWs (c : Char) : Bool := c = ' ' || c = '\n' || c = '\t' || c = '\r'

def skipWs : List Char → List Char
  | [] => []
  | c :: cs => if isWs c then skipWs cs else c :: cs

def headIs (c : Char) : List Char → Bool
  | [] => false
  | d :: _ => d = c

/-- Numeric value of a digit character. -/
def digitVal (c : Char) : Nat := c.toNat - 48

def hexVal (c : Char) : Option Nat :=
  if '0' ≤ c ∧ c ≤ '9' then some (c.toNat - 48)
  else if 'a' ≤ c ∧ c ≤ 'f' then some (c.toNat - 87)
  else if 'A' ≤ c ∧ c ≤ 'F' then some (c.toNat - 55)
  else none

def parseDigitsAux : List Char → Nat → Nat × List Char
  | [], acc => (acc, [])
  | c :: cs, acc =>
      if c.isDigit then parseDigitsAux cs (acc * 10 + digitVal c) else (acc, c :: cs)

/-- Parse a nonempty digit run. -/
def parseNat : List Char → Option (Nat × List Char)
  | [] => none
  | c :: cs => if c.isDigit then some (parseDigitsAux cs (digitVal c)) else none

/-- Parse the body of a string literal (after the opening quote),
accumulating decoded characters in reverse; each step consumes at least
one character, so `fuel` bounds the number of steps. -/
def parseStrBody : Nat → List Char → List Char → Option (String × List Char)
  | 0, _, _ => none
  | _ + 1, _, [] => none
  | f + 1, acc, c :: rest =>
      if c = '"' then some (String.mk acc.reverse, rest)
      else if c = '\\' then
        match rest with
        | [] => none
        | e :: rest2 =>
            if e = '"' then parseStrBody f ('"' :: acc) rest2
            else if e = '\\' then parseStrBody f ('\\' :: acc) rest2
            else if e = 'u' then
              match rest2 with
              | h1 :: h2 :: h3 :: h4 :: rest3 =>
                  match hexVal h1, hexVal h2, hexVal h3, hexVal h4 with
                  | some a, some b, some c3, some d =>
                      let n := ((a * 16 + b) * 16 + c3) * 16 + d
                      if n < 55296 then parseStrBody f (Char.ofNat n :: acc) rest3 else none
                  | _, _, _, _ => none
              | _ => none
            else none
      else parseStrBody f (c :: acc) rest
termination_by structural f => f

mutual

/-- Recursive-descent JSON value parser with explicit fuel: skip
whitespace, then dispatch on the first significant character. -/
def parseValue : Nat → List Char → Option (Json × List Char)
  | 0, _ => none
  | f + 1, s =>
    match skipWs s with
    | [] => none
    | c :: r =>
      if c = 'n' then
        match r with
        | 'u' :: 'l' :: 'l' :: r2 => some (.null, r2)
        | _ => none
      else if c = 't' then
        match r with
        | 'r' :: 'u' :: 'e' :: r2 => some (.bool true, r2)
        | _ => none
      else if c = 'f' then
        match r with
        | 'a' :: 'l' :: 's' :: 'e' :: r2 => some (.bool false, r2)
        | _ => none
      else if c = '"' then
        match parseStrBody (r.length + 1) [] r with
        | some (s, r2) => some (.str s, r2)
        | none => none
      else if c = '-' then
        match parseNat r with
        | some (n, r2) => some (.num (-(n : Int)), r2)
        | none => none
      else if c.isDigit then
        match parseNat (c :: r) with
        | some (n, r2) => some (.num (n : Int), r2)
        | none => none
      else if c = '[' then
        let r1 := skipWs r
        if headIs ']' r1 then some (.arr [], r1.tail)
        else
          match parseItems f r1 with
          | some (vs, r2) => some (.arr vs, r2)
          | none => none
      else if c = '{' then
        let r1 := skipWs r
        if headIs '}' r1 then some (.obj [], r1.tail)
        else
          match parseMems f r1 with
          | some (ms, r2) => some (.obj ms, r2)
          | none => none
      else none
termination_by structural f _ => f

/-- Parse one or more array items separated by commas. -/
def parseItems : Nat → List Char → Option (List Json × List Char)
  | 0, _ => none
  | f + 1, s =>
      match parseValue f s with
      | some (v, r) =>
          let r1 := skipWs r
          if headIs ',' r1 then
            match parseItems f r1.tail with
            | some (vs, r2) => some (v :: vs, r2)
            | none => none
          else if headIs ']' r1 then some ([v], r1.tail)
          else none
      | none => none
termination_by structural f _ => f

/-- Parse one or more object members separated by commas. -/
def parseMems : Nat → List Char → Option (List (String × Json) × List Char)
  | 0, _ => none
  | f + 1, s =>
      let s1 := skipWs s
      if headIs '"' s1 then
        match parseStrBody (s1.tail.length + 1) [] s1.tail with
        | some (k, r) =>
            let r1 := skipWs r
            if headIs ':' r1 then
              match parseValue f r1.tail with
              | some (v, r2) =>
                  let r3 := skipWs r2
                  if headIs ',' r3 then
                    match parseMems f r3.tail with
                    | some (ms, r4) => some ((k, v) :: ms, r4)
                    | none => none
                  else if headIs '}' r3 then some ([(k, v)], r3.tail)
                  else none
              | none => none
            else none
        | none => none
      else none
termination_by structural f _ => f

end

/-- Model of `json.load`: parse a full document, rejecting trailing
non-whitespace. -/
def parseJson (s : List Char) : Option Json :=
  match parseValue (s.length + 1) s with
  | some (j, rest) => if skipWs rest = [] then some j else none
  | none => none

/-! ### Round trip: the parser inverts the encoder -/

/-- The continuation does not begin with a digit (so a digit run before it
is parsed greedily without absorbing it). -/
def noDigitHead : List Char → Bool
  | [] => true
  | c :: _ => !c.isDigit

theorem skipWs_cons_of_ws (c : Char) (h : isWs c = true) (s : List Char) :
    skipWs (c :: s) = skipWs s := by simp [skipWs, h]

theorem skipWs_cons_of_not_ws (c : Char) (h : isWs c = false) (s : List Char) :
    skipWs (c :: s) = c :: s := by simp [skipWs, h]

theorem skipWs_replicate_space (i : Nat) (s : List Char) :
    skipWs (List.replicate i ' ' ++ s) = skipWs s := by
  induction i with
  | zero => simp
  | succ n ih =>
      rw [List.replicate_succ, List.cons_append,
        skipWs_cons_of_ws _ (by decide), ih]

theorem skipWs_nlc (i : Nat) (s : List Char) : skipWs (nlc i ++ s) = skipWs s := by
  rw [nlc, List.cons_append, skipWs_cons_of_ws _ (by decide), skipWs_replicate_space]

theorem parseValue_congr_ws (f : Nat) {s1 s2 : List Char} (h : skipWs s1 = skipWs s2) :
    parseValue f s1 = parseValue f s2 := by
  cases f with
  | zero => rfl
  | succ f => simp only [parseValue]; rw [h]

theorem parseItems_nlc (f k : Nat) (s : List Char) :
    parseItems f (nlc k ++ s) = parseItems f s := by
  cases f with
  | zero => rfl
  | succ f => simp only [parseItems]; rw [parseValue_congr_ws f (skipWs_nlc k s)]

theorem parseMems_nlc (f k : Nat) (s : List Char) :
    parseMems f (nlc k ++ s) = parseMems f s := by
  cases f with
  | zero => rfl
  | succ f => simp only [parseMems]; rw [skipWs_nlc]

theorem isDigit_digitChar {d : Nat} (h : d < 10) : (digitChar d).isDigit = true := by
  interval_cases d <;> decide

theorem digitVal_digitChar {d : Nat} (h : d < 10) : digitVal (digitChar d) = d := by
  interval_cases d <;> decide

/-- Value of a most-significant-first digit string. -/
def digitsVal (ds : List Char) : Nat := ds.foldl (fun a c => a * 10 + digitVal c) 0

theorem digitsVal_foldl (ds : List Char) (a : Nat) :
    ds.foldl (fun x c => x * 10 + digitVal c) a = a * 10 ^ ds.length + digitsVal ds := by
  induction ds generalizing a with
  | nil => simp [digitsVal]
  | cons c cs ih =>
      simp only [List.foldl_cons, List.length_cons, digitsVal]
      rw [ih (a * 10 + digitVal c), ih (0 * 10 + digitVal c), pow_succ]
      ring

theorem encNatAux_digits {fuel n : Nat} {acc : List Char}
    (hacc : ∀ c ∈ acc, c.isDigit = true) :
    ∀ c ∈ encNatAux fuel n acc, c.isDigit = true := by
  induction fuel generalizing n acc with
  | zero => simpa [encNatAux] using hacc
  | succ f ih =>
      by_cases h : n = 0
      · simpa [encNatAux, h] using hacc
      · simp only [encNatAux, h, if_false]
        refine ih ?_
        intro c hc
        rcases List.mem_cons.mp hc with hcd | hmem
        · subst hcd; exact isDigit_digitChar (Nat.mod_lt _ (by norm_num))
        · exact hacc c hmem

theorem digitsVal_encNatAux (fuel : Nat) :
    ∀ (n : Nat) (acc : List Char), n ≤ fuel →
    digitsVal (encNatAux fuel n acc) = n * 10 ^ acc.length + digitsVal acc := by
  induction fuel with
  | zero =>
      intro n acc hn
      have : n = 0 := by omega
      simp [encNatAux, this]
  | succ f ih =>
      intro n acc hn
      by_cases h : n = 0
      · simp [encNatAux, h]
      · simp only [encNatAux, h, if_false]
        rw [ih (n / 10) (digitChar (n % 10) :: acc) (by omega)]
        have hd : digitVal (digitChar (n % 10)) = n % 10 :=
          digitVal_digitChar (Nat.mod_lt _ (by norm_num))
        have hcons : digitsVal (digitChar (n % 10) :: acc)
            = n % 10 * 10 ^ acc.length + digitsVal acc := by
          simp only [digitsVal, List.foldl_cons]
          rw [digitsVal_foldl acc (0 * 10 + digitVal (digitChar (n % 10))), hd]
          simp [digitsVal]
        rw [hcons, List.length_cons, pow_succ]
        have key : n / 10 * (10 ^ acc.length * 10) + n % 10 * 10 ^ acc.length
            = n * 10 ^ acc.length := by
          have h10 : 10 * (n / 10) + n % 10 = n := Nat.div_add_mod n 10
          calc n / 10 * (10 ^ acc.length * 10) + n % 10 * 10 ^ acc.length
              = (10 * (n / 10) + n % 10) * 10 ^ acc.length := by ring
            _ = n * 10 ^ acc.length := by rw [h10]
        omega

theorem encNatAux_cons (fuel : Nat) :
    ∀ (n : Nat) (acc : List Char), n ≠ 0 → n ≤ fuel →
    ∃ c cs, encNatAux fuel n acc = c :: cs ∧ c.isDigit = true := by
  induction fuel with
  | zero => intro n acc hn hle; omega
  | succ f ih =>
      intro n acc hn hle
      simp only [encNatAux, hn, if_false]
      by_cases h10 : n / 10 = 0
      · refine ⟨digitChar (n % 10), acc, ?_, isDigit_digitChar (Nat.mod_lt _ (by norm_num))⟩
        cases f with
        | zero => rfl
        | succ f' => simp [encNatAux, h10]
      · exact ih (n / 10) _ h10 (by omega)

theorem parseDigitsAux_spec (ds : List Char) :
    ∀ (rest : List Char) (a : Nat), (∀ c ∈ ds, c.isDigit = true) →
    noDigitHead rest = true →
    parseDigitsAux (ds ++ rest) a = (ds.foldl (fun x c => x * 10 + digitVal c) a, rest) := by
  induction ds with
  | nil =>
      intro rest a _ hrest
      cases rest with
      | nil => rfl
      | cons c r =>
          have : c.isDigit = false := by simpa [noDigitHead] using hrest
          simp [parseDigitsAux, this]
  | cons c cs ih =>
      intro rest a hds hrest
      have hc : c.isDigit = true := hds c (by simp)
      simp only [List.cons_append, parseDigitsAux, hc, if_true, List.foldl_cons]
      exact ih rest (a * 10 + digitVal c) (fun d hd => hds d (by simp [hd])) hrest

theorem digitsVal_encNat (n : Nat) : digitsVal (encNat n) = n := by
  by_cases h : n = 0
  · simp [encNat, h, digitsVal, digitVal]
  · simp only [encNat, h, if_false]
    simpa [digitsVal] using digitsVal_encNatAux n n [] (le_refl n)

theorem encNat_digits (n : Nat) : ∀ c ∈ encNat n, c.isDigit = true := by
  by_cases h : n = 0
  · simp [encNat, h]
  · simp only [encNat, h, if_false]
    exact encNatAux_digits (by simp)

theorem encNat_cons (n : Nat) : ∃ c cs, encNat n = c :: cs ∧ c.isDigit = true := by
  by_cases h : n = 0
  · exact ⟨'0', [], by simp [encNat, h], by decide⟩
  · simp only [encNat, h, if_false]
    exact encNatAux_cons n n [] h (le_refl n)

theorem parseNat_encNat (n : Nat) (rest : List Char) (hrest : noDigitHead rest = true) :
    parseNat (encNat n ++ rest) = some (n, rest) := by
  obtain ⟨c, cs, heq, hc⟩ := encNat_cons n
  have hall := encNat_digits n
  rw [heq] at hall ⊢
  simp only [List.cons_append, parseNat, hc, if_true]
  rw [parseDigitsAux_spec cs rest (digitVal c) (fun d hd => hall d (by simp [hd])) hrest]
  have : (c :: cs).foldl (fun x d => x * 10 + digitVal d) 0 = n := by
    have := digitsVal_encNat n
    rw [heq] at this
    simpa [digitsVal] using this
  simp only [List.foldl_cons] at this
  simp only [Nat.zero_mul, Nat.zero_add] at this ⊢
  rw [this]

theorem string_mk_data (s : String) : String.mk s.data = s := by
  cases s; rfl

theorem hexVal_hexDigit {d : Nat} (h : d < 16) : hexVal (hexDigit d) = some d := by
  interval_cases d <;> decide

theorem parseStrBody_escList (cs : List Char) :
    ∀ (fuel : Nat) (acc rest : List Char), (escList cs).length < fuel →
    parseStrBody fuel acc (escList cs ++ ('"' :: rest))
      = some (String.mk (acc.reverse ++ cs), rest) := by
  induction cs with
  | nil =>
      intro fuel acc rest hf
      match fuel, hf with
      | f + 1, _ => simp [escList, parseStrBody]
  | cons c cs ih =>
      intro fuel acc rest hf
      have hlen : (escList (c :: cs)).length = (escChar c).length + (escList cs).length := by
        simp [escList]
      have hone : 1 ≤ (escChar c).length := by
        rcases Decidable.em (c = '"') with h | h
        · simp [escChar, h]
        · rcases Decidable.em (c = '\\') with h2 | h2
          · simp [escChar, h, h2]
          · rcases Decidable.em (c.toNat < 32) with h3 | h3
            · simp [escChar, h, h2, h3]
            · simp [escChar, h, h2, h3]
      match fuel, hf with
      | f + 1, hf =>
      have hf2 : (escList cs).length < f := by omega
      rcases Decidable.em (c = '"') with h1 | h1
      · subst h1
        have he : escList ('"' :: cs) = '\\' :: '"' :: escList cs := rfl
        rw [he, List.cons_append, List.cons_append]
        have step : parseStrBody (f + 1) acc ('\\' :: '"' :: (escList cs ++ '"' :: rest))
            = parseStrBody f ('"' :: acc) (escList cs ++ '"' :: rest) := rfl
        rw [step, ih f _ _ hf2]
        simp
      · rcases Decidable.em (c = '\\') with h2 | h2
        · subst h2
          have he : escList ('\\' :: cs) = '\\' :: '\\' :: escList cs := rfl
          rw [he, List.cons_append, List.cons_append]
          have step : parseStrBody (f + 1) acc ('\\' :: '\\' :: (escList cs ++ '"' :: rest))
              = parseStrBody f ('\\' :: acc) (escList cs ++ '"' :: rest) := rfl
          rw [step, ih f _ _ hf2]
          simp
        · rcases Decidable.em (c.toNat < 32) with h3 | h3
          · have he : escList (c :: cs) = '\\' :: 'u' :: '0' :: '0'
                :: hexDigit (c.toNat / 16) :: hexDigit (c.toNat % 16) :: escList cs := by
              simp [escList, escChar, h1, h2, h3]
            rw [he]
            simp only [List.cons_append]
            have hhi : hexVal (hexDigit (c.toNat / 16)) = some (c.toNat / 16) :=
              hexVal_hexDigit (by omega)
            have hlo : hexVal (hexDigit (c.toNat % 16)) = some (c.toNat % 16) :=
              hexVal_hexDigit (Nat.mod_lt _ (by norm_num))
            have step : parseStrBody (f + 1) acc ('\\' :: 'u' :: '0' :: '0'
                :: hexDigit (c.toNat / 16) :: hexDigit (c.toNat % 16)
                :: (escList cs ++ '"' :: rest))
                = parseStrBody f (c :: acc) (escList cs ++ '"' :: rest) := by
              have e0 : hexVal '0' = some 0 := by decide
              have h55 : c.toNat < 55296 := by omega
              have hX : c.toNat / 16 * 16 + c.toNat % 16 = c.toNat := by omega
              simp [parseStrBody, e0, hhi, hlo, hX, h55, Char.ofNat_toNat]
            rw [step, ih f _ _ hf2]
            simp
          · have he : escList (c :: cs) = c :: escList cs := by
              simp [escList, escChar, h1, h2, h3]
            rw [he, List.cons_append]
            have step : parseStrBody (f + 1) acc (c :: (escList cs ++ '"' :: rest))
                = parseStrBody f (c :: acc) (escList cs ++ '"' :: rest) := by
              simp [parseStrBody, h1, h2]
            rw [step, ih f _ _ hf2]
            simp

theorem jsize_pos (j : Json) : 1 ≤ jsize j := by
  cases j <;> simp [jsize]

theorem lsizeJ_pos (xs : List Json) : 1 ≤ lsizeJ xs := by
  cases xs with
  | nil => simp [lsizeJ]
  | cons x xs => simp [lsizeJ]; omega

theorem msizeJ_pos (ms : List (String × Json)) : 1 ≤ msizeJ ms := by
  cases ms with
  | nil => simp [msizeJ]
  | cons m ms => rcases m with ⟨k, v⟩; simp [msizeJ]; omega

/-- A digit character is none of the parser's special dispatch characters. -/
theorem isDigit_props {c : Char} (h : c.isDigit = true) :
    c ≠ 'n' ∧ c ≠ 't' ∧ c ≠ 'f' ∧ c ≠ '"' ∧ c ≠ '-' ∧ isWs c = false
      ∧ c ≠ ']' ∧ c ≠ '}' ∧ c ≠ ',' := by
  refine ⟨?_, ?_, ?_, ?_, ?_, ?_, ?_, ?_, ?_⟩
  all_goals first
    | (intro hc; subst hc; exact absurd h (by decide))
    | (rcases Decidable.em (c = ' ') with hsp | hsp
       · subst hsp; exact absurd h (by decide)
       · rcases Decidable.em (c = '\n') with hnl | hnl
         · subst hnl; exact absurd h (by decide)
         · rcases Decidable.em (c = '\t') with htb | htb
           · subst htb; exact absurd h (by decide)
           · rcases Decidable.em (c = '\r') with hcr | hcr
             · subst hcr; exact absurd h (by decide)
             · simp [isWs, hsp, hnl, htb, hcr])

/-- Every encoded value begins with a significant character that is not a
closing delimiter. -/
theorem encVal_head (i : Nat) (j : Json) :
    ∃ c t, encVal i j = c :: t ∧ isWs c = false ∧ c ≠ ']' ∧ c ≠ '}' := by
  have hdig : ∀ c : Char, c.isDigit = true →
      isWs c = false ∧ c ≠ ']' ∧ c ≠ '}' := by
    intro c hc
    obtain ⟨-, -, -, -, -, hws, hrb, hcb, -⟩ := isDigit_props hc
    exact ⟨hws, hrb, hcb⟩
  cases j with
  | num n =>
      rcases Decidable.em (n < 0) with hneg | hneg
      · refine ⟨'-', encNat n.natAbs, ?_, by decide⟩
        simp [encVal, encInt, hneg]
      · obtain ⟨c, cs, hc, hd⟩ := encNat_cons n.natAbs
        refine ⟨c, cs, ?_, hdig c hd⟩
        simp [encVal, encInt, hneg, hc]
  | bool b => rcases b with _ | _
              · exact ⟨'f', _, rfl, by decide⟩
              · exact ⟨'t', _, rfl, by decide⟩
  | null => exact ⟨'n', _, rfl, by decide⟩
  | str s => exact ⟨'"', _, rfl, by decide⟩
  | arr xs => rcases xs with _ | ⟨x, xs⟩ <;> exact ⟨'[', _, rfl, by decide⟩
  | obj ms => rcases ms with _ | ⟨m, ms⟩ <;> exact ⟨'{', _, rfl, by decide⟩

theorem noDigitHead_nlc (i : Nat) (z : List Char) : noDigitHead (nlc i ++ z) = true := by
  simp [nlc, noDigitHead]

theorem parseValue_null_head (f : Nat) (r2 : List Char) :
    parseValue (f + 1) ('n' :: 'u' :: 'l' :: 'l' :: r2) = some (.null, r2) := rfl

theorem parseValue_true_head (f : Nat) (r2 : List Char) :
    parseValue (f + 1) ('t' :: 'r' :: 'u' :: 'e' :: r2) = some (.bool true, r2) := rfl

theorem parseValue_false_head (f : Nat) (r2 : List Char) :
    parseValue (f + 1) ('f' :: 'a' :: 'l' :: 's' :: 'e' :: r2) = some (.bool false, r2) := rfl

theorem parseValue_quote_head (f : Nat) (r : List Char) :
    parseValue (f + 1) ('"' :: r)
      = match parseStrBody (r.length + 1) [] r with
        | some (st, r2) => some (.str st, r2)
        | none => none := rfl

theorem parseValue_minus_head (f : Nat) (r : List Char) :
    parseValue (f + 1) ('-' :: r)
      = match parseNat r with
        | some (n, r2) => some (.num (-(n : Int)), r2)
        | none => none := rfl

theorem parseValue_digit_head (f : Nat) {c : Char} (r : List Char) (h : c.isDigit = true) :
    parseValue (f + 1) (c :: r)
      = match parseNat (c :: r) with
        | some (n, r2) => some (.num (n : Int), r2)
        | none => none := by
  obtain ⟨hn, ht, hf2, hq, hm, hws, _, _, _⟩ := isDigit_props h
  simp only [parseValue, skipWs_cons_of_not_ws _ hws]
  simp [hn, ht, hf2, hq, hm, h]

theorem parseValue_bracket_head (f : Nat) (r : List Char) :
    parseValue (f + 1) ('[' :: r)
      = (if headIs ']' (skipWs r) then some (.arr [], (skipWs r).tail)
         else
           match parseItems f (skipWs r) with
           | some (vs, r2) => some (.arr vs, r2)
           | none => none) := rfl

theorem parseValue_brace_head (f : Nat) (r : List Char) :
    parseValue (f + 1) ('{' :: r)
      = (if headIs '}' (skipWs r) then some (.obj [], (skipWs r).tail)
         else
           match parseMems f (skipWs r) with
           | some (ms, r2) => some (.obj ms, r2)
           | none => none) := rfl

theorem encMembers_head (i : Nat) (m : String × Json) (ms : List (String × Json)) :
    ∃ t, encMembers i (m :: ms) = '"' :: t := by
  rcases m with ⟨k, v⟩
  cases ms with
  | nil => exact ⟨_, rfl⟩
  | cons m' ms' => exact ⟨_, rfl⟩

theorem encItems_head (i : Nat) (x : Json) (xs : List Json) :
    ∃ c t, encItems i (x :: xs) = c :: t ∧ isWs c = false ∧ c ≠ ']' := by
  obtain ⟨c, t, hx, hws, hrb, _⟩ := encVal_head (i + 4) x
  cases xs with
  | nil => exact ⟨c, t ++ (nlc i ++ [']']), by simp [encItems, hx], hws, hrb⟩
  | cons y ys =>
      exact ⟨c, t ++ (',' :: (nlc (i + 4) ++ encItems i (y :: ys))),
        by simp [encItems, hx], hws, hrb⟩

/-- Parsing one object member: the key literal and colon are consumed,
leaving the value parse and the separator dispatch. -/
theorem parseMems_key (f : Nat) (k : String) (C : List Char) :
    parseMems (f + 1) (encStr k ++ (':' :: ' ' :: C))
      = (match parseValue f (' ' :: C) with
        | some (v, r2) =>
            if headIs ',' (skipWs r2) then
              match parseMems f (skipWs r2).tail with
              | some (ms, r4) => some ((k, v) :: ms, r4)
              | none => none
            else if headIs '}' (skipWs r2) then some ([(k, v)], (skipWs r2).tail)
            else none
        | none => none) := by
  rw [show encStr k ++ (':' :: ' ' :: C)
      = '"' :: (escList k.data ++ ('"' :: (':' :: ' ' :: C))) by simp [encStr]]
  simp only [parseMems]
  rw [skipWs_cons_of_not_ws _ (by decide)]
  simp only [headIs, List.tail_cons]
  rw [if_pos (by decide)]
  rw [parseStrBody_escList k.data _ [] _ (by simp [List.length_append]; omega)]
  simp only [List.reverse_nil, List.nil_append, string_mk_data]
  rw [skipWs_cons_of_not_ws _ (by decide)]
  simp only [headIs, List.tail_cons]
  rw [if_pos (by decide)]

mutual

theorem parseValue_encVal (j : Json) : ∀ (i fuel : Nat) (rest : List Char),
    jsize j < fuel → noDigitHead rest = true →
    parseValue fuel (encVal i j ++ rest) = some (j, rest) := by
  intro i fuel rest hf hr
  cases fuel with
  | zero => have := jsize_pos j; omega
  | succ f =>
    cases j with
    | null => exact parseValue_null_head f rest
    | bool b =>
        cases b with
        | true => exact parseValue_true_head f rest
        | false => exact parseValue_false_head f rest
    | num n =>
        rcases Decidable.em (n < 0) with hneg | hneg
        · have he : encVal i (.num n) = '-' :: encNat n.natAbs := by
            simp [encVal, encInt, hneg]
          rw [he, List.cons_append, parseValue_minus_head, parseNat_encNat _ _ hr]
          show some (Json.num (-(n.natAbs : Int)), rest) = some (Json.num n, rest)
          have hn : (-(n.natAbs : Int)) = n := by omega
          rw [hn]
        · obtain ⟨c, cs, hc, hdig⟩ := encNat_cons n.natAbs
          have he : encVal i (.num n) = c :: cs := by
            simp [encVal, encInt, hneg, hc]
          rw [he, List.cons_append, parseValue_digit_head f _ hdig]
          rw [show c :: (cs ++ rest) = encNat n.natAbs ++ rest by rw [hc]; simp]
          rw [parseNat_encNat _ _ hr]
          show some (Json.num ((n.natAbs : Int)), rest) = some (Json.num n, rest)
          have hn : ((n.natAbs : Int)) = n := by omega
          rw [hn]
    | str s =>
        have he : encVal i (.str s) = '"' :: (escList s.data ++ ['"']) := rfl
        rw [he, List.cons_append, parseValue_quote_head]
        have hassoc : (escList s.data ++ ['"']) ++ rest = escList s.data ++ ('"' :: rest) := by
          simp
        rw [hassoc, parseStrBody_escList s.data _ [] rest (by simp [List.length_append]; omega)]
        simp [string_mk_data]
    | arr xs =>
        cases xs with
        | nil => exact rfl
        | cons x xs =>
            obtain ⟨c, t, hx, hws, hrb⟩ := encItems_head i x xs
            have he : encVal i (.arr (x :: xs)) = '[' :: (nlc (i + 4) ++ encItems i (x :: xs)) := rfl
            rw [he, List.cons_append, parseValue_bracket_head]
            have hskip : skipWs ((nlc (i + 4) ++ encItems i (x :: xs)) ++ rest)
                = encItems i (x :: xs) ++ rest := by
              rw [List.append_assoc, skipWs_nlc, hx, List.cons_append,
                skipWs_cons_of_not_ws _ hws, ← List.cons_append, ← hx]
            rw [hskip]
            have hhead : headIs ']' (encItems i (x :: xs) ++ rest) = false := by
              rw [hx, List.cons_append]
              simp [headIs, hrb]
            rw [if_neg (by simp [hhead])]
            have hfi : lsizeJ (x :: xs) < f := by
              simp [jsize] at hf; omega
            rw [parseItems_encItems x xs i f rest hfi hr]
    | obj ms =>
        cases ms with
        | nil => exact rfl
        | cons m ms =>
            obtain ⟨k, v⟩ := m
            obtain ⟨t, hm⟩ := encMembers_head i (k, v) ms
            have he : encVal i (.obj ((k, v) :: ms))
                = '{' :: (nlc (i + 4) ++ encMembers i ((k, v) :: ms)) := rfl
            rw [he, List.cons_append, parseValue_brace_head]
            have hskip : skipWs ((nlc (i + 4) ++ encMembers i ((k, v) :: ms)) ++ rest)
                = encMembers i ((k, v) :: ms) ++ rest := by
              rw [List.append_assoc, skipWs_nlc, hm, List.cons_append,
                skipWs_cons_of_not_ws _ (by decide), ← List.cons_append, ← hm]
            rw [hskip]
            have hhead : headIs '}' (encMembers i ((k, v) :: ms) ++ rest) = false := by
              rw [hm, List.cons_append]
              simp [headIs]
            rw [if_neg (by simp [hhead])]
            have hfi : msizeJ ((k, v) :: ms) < f := by
              simp [jsize] at hf; omega
            rw [parseMems_encMembers k v ms i f rest hfi hr]
termination_by _ fuel _ => fuel
decreasing_by all_goals omega

theorem parseItems_encItems (x : Json) (xs : List Json) :
    ∀ (i fuel : Nat) (rest : List Char),
    lsizeJ (x :: xs) < fuel → noDigitHead rest = true →
    parseItems fuel (encItems i (x :: xs) ++ rest) = some (x :: xs, rest) := by
  intro i fuel rest hf hr
  cases fuel with
  | zero => have := lsizeJ_pos (x :: xs); omega
  | succ f =>
    cases xs with
    | nil =>
        have he : encItems i [x] ++ rest = encVal (i + 4) x ++ (nlc i ++ (']' :: rest)) := by
          simp [encItems]
        have hv : parseValue f (encVal (i + 4) x ++ (nlc i ++ (']' :: rest)))
            = some (x, nlc i ++ (']' :: rest)) :=
          parseValue_encVal x (i + 4) f _ (by simp [lsizeJ] at hf; omega) (noDigitHead_nlc _ _)
        rw [he]
        simp only [parseItems]
        rw [hv]
        have h1 : skipWs (nlc i ++ (']' :: rest)) = ']' :: rest := by
          rw [skipWs_nlc]; exact skipWs_cons_of_not_ws _ (by decide) _
        simp [h1, headIs]
    | cons y ys =>
        have he : encItems i (x :: y :: ys) ++ rest
            = encVal (i + 4) x
              ++ (',' :: (nlc (i + 4) ++ (encItems i (y :: ys) ++ rest))) := by
          simp [encItems]
        have hv : parseValue f (encVal (i + 4) x
              ++ (',' :: (nlc (i + 4) ++ (encItems i (y :: ys) ++ rest))))
            = some (x, ',' :: (nlc (i + 4) ++ (encItems i (y :: ys) ++ rest))) :=
          parseValue_encVal x (i + 4) f _ (by simp [lsizeJ] at hf; omega) (by simp [noDigitHead])
        have hrec : parseItems f (nlc (i + 4) ++ (encItems i (y :: ys) ++ rest))
            = some (y :: ys, rest) := by
          rw [parseItems_nlc]
          exact parseItems_encItems y ys i f rest (by simp [lsizeJ] at hf ⊢; omega) hr
        rw [he]
        simp only [parseItems]
        rw [hv]
        have h1 : skipWs (',' :: (nlc (i + 4) ++ (encItems i (y :: ys) ++ rest)))
            = ',' :: (nlc (i + 4) ++ (encItems i (y :: ys) ++ rest)) :=
          skipWs_cons_of_not_ws ',' (by decide) _
        simp [h1, headIs, hrec]
termination_by _ fuel _ => fuel
decreasing_by all_goals omega

theorem parseMems_encMembers (k : String) (v : Json) (ms : List (String × Json)) :
    ∀ (i fuel : Nat) (rest : List Char),
    msizeJ ((k, v) :: ms) < fuel → noDigitHead rest = true →
    parseMems fuel (encMembers i ((k, v) :: ms) ++ rest) = some ((k, v) :: ms, rest) := by
  intro i fuel rest hf hr
  cases fuel with
  | zero => have := msizeJ_pos ((k, v) :: ms); omega
  | succ f =>
    cases ms with
    | nil =>
        have he : encMembers i [(k, v)] ++ rest
            = encStr k ++ (':' :: ' ' :: (encVal (i + 4) v ++ (nlc i ++ ('}' :: rest)))) := by
          simp [encMembers]
        rw [he, parseMems_key]
        have hv : parseValue f (' ' :: (encVal (i + 4) v ++ (nlc i ++ ('}' :: rest))))
            = some (v, nlc i ++ ('}' :: rest)) := by
          rw [parseValue_congr_ws f (skipWs_cons_of_ws _ (by decide) _)]
          exact parseValue_encVal v (i + 4) f _ (by simp [msizeJ] at hf; omega)
            (noDigitHead_nlc _ _)
        rw [hv]
        have h1 : skipWs (nlc i ++ ('}' :: rest)) = '}' :: rest := by
          rw [skipWs_nlc]; exact skipWs_cons_of_not_ws _ (by decide) _
        simp [h1, headIs]
    | cons m' ms' =>
        obtain ⟨k', v'⟩ := m'
        have he : encMembers i ((k, v) :: (k', v') :: ms') ++ rest
            = encStr k ++ (':' :: ' ' :: (encVal (i + 4) v
              ++ (',' :: (nlc (i + 4) ++ (encMembers i ((k', v') :: ms') ++ rest))))) := by
          simp [encMembers]
        rw [he, parseMems_key]
        have hv : parseValue f (' ' :: (encVal (i + 4) v
              ++ (',' :: (nlc (i + 4) ++ (encMembers i ((k', v') :: ms') ++ rest)))))
            = some (v, ',' :: (nlc (i + 4) ++ (encMembers i ((k', v') :: ms') ++ rest))) := by
          rw [parseValue_congr_ws f (skipWs_cons_of_ws _ (by decide) _)]
          exact parseValue_encVal v (i + 4) f _ (by simp [msizeJ] at hf; omega)
            (by simp [noDigitHead])
        have hrec : parseMems f (nlc (i + 4) ++ (encMembers i ((k', v') :: ms') ++ rest))
            = some ((k', v') :: ms', rest) := by
          rw [parseMems_nlc]
          exact parseMems_encMembers k' v' ms' i f rest
            (by simp [msizeJ] at hf ⊢; omega) hr
        rw [hv]
        have h1 : skipWs (',' :: (nlc (i + 4) ++ (encMembers i ((k', v') :: ms') ++ rest)))
            = ',' :: (nlc (i + 4) ++ (encMembers i ((k', v') :: ms') ++ rest)) :=
          skipWs_cons_of_not_ws ',' (by decide) _
        simp [h1, headIs, hrec]
termination_by _ fuel _ => fuel
decreasing_by all_goals omega

end

theorem nlc_length (i : Nat) : (nlc i).length = 1 + i := by
  simp [nlc]; omega

theorem encNat_length_pos (n : Nat) : 1 ≤ (encNat n).length := by
  obtain ⟨c, cs, hc, _⟩ := encNat_cons n
  simp [hc]

theorem encInt_length_pos (n : Int) : 1 ≤ (encInt n).length := by
  rcases Decidable.em (n < 0) with h | h
  · simp [encInt, h]
  · simp only [encInt, h, if_false]
    exact encNat_length_pos _

/-- Sizes are bounded by encoding lengths, so `input length + 1` is always
enough parser fuel for a well-formed encoding. -/
theorem size_le_enc_length (n : Nat) :
    (∀ (i : Nat) (j : Json), jsize j ≤ n → jsize j ≤ (encVal i j).length)
    ∧ (∀ (i : Nat) (x : Json) (xs : List Json), lsizeJ (x :: xs) ≤ n →
        lsizeJ (x :: xs) ≤ (encItems i (x :: xs)).length)
    ∧ (∀ (i : Nat) (k : String) (v : Json) (ms : List (String × Json)),
        msizeJ ((k, v) :: ms) ≤ n →
        msizeJ ((k, v) :: ms) ≤ (encMembers i ((k, v) :: ms)).length) := by
  induction n with
  | zero =>
      refine ⟨?_, ?_, ?_⟩
      · intro i j h; have := jsize_pos j; omega
      · intro i x xs h; have := lsizeJ_pos (x :: xs); omega
      · intro i k v ms h; have := msizeJ_pos ((k, v) :: ms); omega
  | succ n ih =>
      obtain ⟨ihP, ihQ, ihR⟩ := ih
      refine ⟨?_, ?_, ?_⟩
      · intro i j h
        cases j with
        | null => simp [jsize, encVal]
        | bool b => cases b <;> simp [jsize, encVal]
        | num m =>
            have := encInt_length_pos m
            simp [jsize, encVal]; omega
        | str s => simp [jsize, encVal, encStr]
        | arr xs =>
            cases xs with
            | nil => simp [jsize, lsizeJ, encVal]
            | cons x xs =>
                have hls : lsizeJ (x :: xs) ≤ n := by
                  simp [jsize] at h; omega
                have := ihQ i x xs hls
                simp [jsize, encVal, nlc_length]
                omega
        | obj ms =>
            cases ms with
            | nil => simp [jsize, msizeJ, encVal]
            | cons m ms =>
                obtain ⟨k, v⟩ := m
                have hms : msizeJ ((k, v) :: ms) ≤ n := by
                  simp [jsize, msizeJ] at h ⊢; omega
                have := ihR i k v ms hms
                simp [jsize, encVal, nlc_length]
                omega
      · intro i x xs h
        cases xs with
        | nil =>
            have hx : jsize x ≤ n := by
              have := jsize_pos x; simp [lsizeJ] at h; omega
            have := ihP (i + 4) x hx
            simp [lsizeJ, encItems, nlc_length]
            omega
        | cons y ys =>
            have hx : jsize x ≤ n := by
              have := jsize_pos x; have := lsizeJ_pos (y :: ys)
              simp [lsizeJ] at h; omega
            have hys : lsizeJ (y :: ys) ≤ n := by
              have := jsize_pos x; simp [lsizeJ] at h ⊢; omega
            have h1 := ihP (i + 4) x hx
            have h2 := ihQ i y ys hys
            simp [lsizeJ, encItems, nlc_length] at h2 ⊢
            omega
      · intro i k v ms h
        cases ms with
        | nil =>
            have hv : jsize v ≤ n := by
              have := jsize_pos v; simp [msizeJ] at h; omega
            have := ihP (i + 4) v hv
            simp [msizeJ, encMembers, encStr, nlc_length]
            omega
        | cons m' ms' =>
            obtain ⟨k', v'⟩ := m'
            have hv : jsize v ≤ n := by
              have := jsize_pos v; have := msizeJ_pos ((k', v') :: ms')
              simp [msizeJ] at h; omega
            have hms : msizeJ ((k', v') :: ms') ≤ n := by
              have := jsize_pos v; simp [msizeJ] at h ⊢; omega
            have h1 := ihP (i + 4) v hv
            have h2 := ihR i k' v' ms' hms
            simp [msizeJ, encMembers, encStr, nlc_length] at h2 ⊢
            omega

/-- Top-level round trip: `json.load` inverts `json.dump(..., indent=4)`. -/
theorem parseJson_encVal (j : Json) : parseJson (encVal 0 j) = some j := by
  have hsize : jsize j ≤ (encVal 0 j).length :=
    (size_le_enc_length (jsize j)).1 0 j (le_refl _)
  have h := parseValue_encVal j 0 ((encVal 0 j).length + 1) [] (by omega) rfl
  rw [parseJson]
  rw [show encVal 0 j ++ ([] : List Char) = encVal 0 j from by simp] at h
  rw [h]
  rfl

/-! ### Cache store: `open_cache` / `save_cache` over the cache file -/

/-- Python exceptions the embedded code can raise. -/
inductive PyErr where
  | attributeError
  | keyError
  | typeError
  | jsonDecodeError
deriving Repr, DecidableEq

/-- A parsed cache object: the JSON object's members in insertion order. -/
abbrev Store := List (String × Json)

/-- First value bound to `k` (Python dict lookup). -/
def getKey : Store → String → Option Json
  | [], _ => none
  | (k', v) :: rest, k => if k' = k then some v else getKey rest k

/-- Python dict assignment: overwrite in place, or append a new binding. -/
def setKey : Store → String → Json → Store
  | [], k, v => [(k, v)]
  | (k', v') :: rest, k, v =>
      if k' = k then (k, v) :: rest else (k', v') :: setKey rest k v

/-- `open_cache`: absent file yields an empty store; present but
unparseable contents raise `json.JSONDecodeError`. -/
def open_cache : Option (List Char) → Except PyErr Json
  | none => .ok (.obj [])
  | some s =>
      match parseJson s with
      | some j => .ok j
      | none => .error .jsonDecodeError

/-- `save_cache`: serialise the whole store with `json.dump(..., indent=4)`
and overwrite the cache file. -/
def save_cache (cache_dict : Json) : Option (List Char) :=
  some (encVal 0 cache_dict)

/-- `x in cache_dict.keys()` and indexing assume a dict; any other JSON
value raises `AttributeError` at the `.keys()` access. -/
def asObj : Json → Except PyErr Store
  | .obj ms => .ok ms
  | _ => .error .attributeError

/-- Read a string field of a cached record. A missing key raises
`KeyError`. (Python would pass a non-string value through unchanged; the
record type here is `String`-typed, so that case is mapped to
`TypeError`, which no claim depends on.) -/
def getStrField (ms : Store) (k : String) : Except PyErr String :=
  match getKey ms k with
  | some (.str s) => .ok s
  | some _ => .error .typeError
  | none => .error .keyError

/-! ### Document model: `BeautifulSoup` trees and `find` / `find_all` -/

/-- The element attributes the scraper inspects. -/
structure Attrs where
  className : Option String
  idAttr : Option String
  itemprop : Option String
  href : Option String
deriving Repr, DecidableEq

/-- An HTML node: raw text or an element with children. -/
inductive HNode where
  | text (s : String)
  | elem (tag : String) (attrs : Attrs) (children : List HNode)

def childrenOf : HNode → List HNode
  | .text _ => []
  | .elem _ _ cs => cs

mutual

/-- `.text`: concatenation of all descendant text, in document order. -/
def nodeText : HNode → String
  | .text s => s
  | .elem _ _ cs => textOfList cs
termination_by structural n => n

def textOfList : List HNode → String
  | [] => ""
  | n :: rest => nodeText n ++ textOfList rest
termination_by structural l => l

end

mutual

/-- `find`: the first node matching `p` in pre-order. -/
def findNode (p : HNode → Bool) : List HNode → Option HNode
  | [] => none
  | n :: rest =>
      if p n then some n
      else
        match findInNode p n with
        | some m => some m
        | none => findNode p rest
termination_by structural l => l

/-- `element.find`: search the element's descendants only. -/
def findInNode (p : HNode → Bool) : HNode → Option HNode
  | .text _ => none
  | .elem _ _ cs => findNode p cs
termination_by structural n => n

end

mutual

/-- `find_all`: every node matching `p`, in pre-order. -/
def findAllNodes (p : HNode → Bool) : List HNode → List HNode
  | [] => []
  | n :: rest =>
      (if p n then [n] else []) ++ findAllInNode p n ++ findAllNodes p rest
termination_by structural l => l

def findAllInNode (p : HNode → Bool) : HNode → List HNode
  | .text _ => []
  | .elem _ _ cs => findAllNodes p cs
termination_by structural n => n

end

/-- `soup.find(tag, class_=cls)`; the scraper always matches the class
attribute's full string, which this models as string equality. -/
def isTagClass (tag cls : String) : HNode → Bool
  | .elem t a _ => t == tag && a.className == some cls
  | .text _ => false

/-- `soup.find(tag, id=idv)`. -/
def isTagId (tag idv : String) : HNode → Bool
  | .elem t a _ => t == tag && a.idAttr == some idv
  | .text _ => false

/-- `element.find(tag, itemprop=ip)`. -/
def isTagItemprop (tag ip : String) : HNode → Bool
  | .elem t a _ => t == tag && a.itemprop == some ip
  | .text _ => false

/-- `element.find(tag)`. -/
def isTag (tag : String) : HNode → Bool
  | .elem t _ _ => t == tag
  | .text _ => false

/-- `a["href"]`. -/
def hrefOf : HNode → Option String
  | .elem _ a _ => a.href
  | .text _ => none

/-- Python `str.strip()`: drop leading and trailing whitespace. -/
def isPySpace (c : Char) : Bool :=
  c = ' ' || c = '\t' || c = '\n' || c = '\r' || c = Char.ofNat 11 || c = Char.ofNat 12

def pyStrip (s : String) : String :=
  ⟨((s.data.dropWhile isPySpace).reverse.dropWhile isPySpace).reverse⟩

/-- Python `str.lower()` (ASCII range, all this scraper needs). -/
def pyLowerChar (c : Char) : Char :=
  if 'A' ≤ c ∧ c ≤ 'Z' then Char.ofNat (c.toNat + 32) else c

def pyLower (s : String) : String := ⟨s.data.map pyLowerChar⟩

/-! ### The scraper: `NationalSite` and the four resolvers -/

/-- `NationalSite`: the record a detail page is extracted into. -/
structure NationalSite where
  category : String
  name : String
  address : String
  zipcode : String
  phone : String
deriving Repr, DecidableEq

/-- `NationalSite.info`. -/
def NationalSite.info (s : NationalSite) : String :=
  s.name ++ " (" ++ s.category ++ "): " ++ s.address ++ " " ++ s.zipcode

/-- `get_site_instance`: cache-hit path rebuilds the record from the
cached entry; miss path scrapes the page, with per-field sentinel
fallbacks mirroring the `try/except AttributeError` blocks, then persists
the updated store. `net` is the network oracle (`requests.get` +
`BeautifulSoup`); the result carries the record, the cache file after the
call, and the number of fetches performed. -/
def get_site_instance (net : String → HNode) (site_url : String)
    (file : Option (List Char)) :
    Except PyErr (NationalSite × Option (List Char) × Nat) := do
  let cacheJson ← open_cache file
  let cache_dict ← asObj cacheJson
  match getKey cache_dict site_url with
  | some entry => do
      let entryObj ← asObj entry
      let category ← getStrField entryObj "category"
      let name ← getStrField entryObj "name"
      let address ← getStrField entryObj "address"
      let zipcode ← getStrField entryObj "zipcode"
      let phone ← getStrField entryObj "phone"
      .ok (⟨category, name, address, zipcode, phone⟩, file, 0)
  | none =>
      let soup := net site_url
      match findInNode (isTagClass "div" "Hero-titleContainer") soup with
      | none => .error .attributeError
      | some headers =>
          let name :=
            match findInNode (isTagClass "a" "Hero-title") headers with
            | some e => pyStrip (nodeText e)
            | none => "No name"
          let category :=
            match findInNode (isTagClass "span" "Hero-designation") headers with
            | some e => pyStrip (nodeText e)
            | none => "No category"
          match findInNode (isTagClass "div" "ParkFooter-contact") soup with
          | none => .error .attributeError
          | some footers =>
              let address :=
                match findInNode (isTagItemprop "span" "addressLocality") footers,
                      findInNode (isTagItemprop "span" "addressRegion") footers with
                | some lo, some re => pyStrip (nodeText lo) ++ ", " ++ pyStrip (nodeText re)
                | _, _ => "No address"
              let zipcode :=
                match findInNode (isTagItemprop "span" "postalCode") footers with
                | some e => pyStrip (nodeText e)
                | none => "No zipcode"
              let phone :=
                match findInNode (isTagItemprop "span" "telephone") footers with
                | some e => pyStrip (nodeText e)
                | none => "No phone"
              let record : Json := .obj [("category", .str category), ("name", .str name),
                ("address", .str address), ("zipcode", .str zipcode), ("phone", .str phone)]
              let file2 := save_cache (.obj (setKey cache_dict site_url record))
              .ok (⟨category, name, address, zipcode, phone⟩, file2, 1)

/-- The loop of `get_sites_for_state` over the cached/extracted URL list:
one `get_site_instance` call per URL, threading the cache file and
summing fetches. -/
def site_instances_loop (net : String → HNode) :
    List String → Option (List Char) →
    Except PyErr (List NationalSite × Option (List Char) × Nat)
  | [], file => .ok ([], file, 0)
  | url :: urls, file =>
      match get_site_instance net url file with
      | .error e => .error e
      | .ok (site, file2, n) =>
          match site_instances_loop net urls file2 with
          | .error e => .error e
          | .ok (sites, file3, m) => .ok (site :: sites, file3, n + m)

/-- A cached URL list must be a JSON array of strings to iterate. -/
def asStrList : Json → Except PyErr (List String)
  | .arr xs =>
      xs.mapM fun x =>
        match x with
        | .str s => Except.ok s
        | _ => .error .typeError
  | _ => .error .typeError

/-- The URL-building loop of `get_sites_for_state`: for each heading,
`site.find("a")["href"]`, concatenated between the base URL and the fixed
trailing `index.htm`. A heading without an anchor raises (`None` is not
subscriptable); an anchor without `href` raises `KeyError`. -/
def extract_site_urls : List HNode → Except PyErr (List String)
  | [] => .ok []
  | h :: rest =>
      match findInNode (isTag "a") h with
      | none => .error .typeError
      | some a =>
          match hrefOf a with
          | none => .error .keyError
          | some path =>
              match extract_site_urls rest with
              | .error e => .error e
              | .ok urls => .ok (("https://www.nps.gov" ++ path ++ "index.htm") :: urls)

/-- `get_sites_for_state`: resolve the state page to its ordered detail
URL list (from cache or by scraping `ul#list_parks`), persist it on a
miss, then build a `NationalSite` per URL. -/
def get_sites_for_state (net : String → HNode) (state_url : String)
    (file : Option (List Char)) :
    Except PyErr (List NationalSite × Option (List Char) × Nat) := do
  let cacheJson ← open_cache file
  let cache_dict ← asObj cacheJson
  match getKey cache_dict state_url with
  | some entry => do
      let site_urls ← asStrList entry
      site_instances_loop net site_urls file
  | none =>
      let soup := net state_url
      match findInNode (isTagId "ul" "list_parks") soup with
      | none => .error .attributeError
      | some ul =>
          match extract_site_urls (findAllNodes (isTag "h3") (childrenOf ul)) with
          | .error e => .error e
          | .ok site_urls =>
              let file2 := save_cache (.obj (setKey cache_dict state_url
                (.arr (site_urls.map Json.str))))
              match site_instances_loop net site_urls file2 with
              | .error e => .error e
              | .ok (sites, file3, m) => .ok (sites, file3, 1 + m)

/-- The state-dictionary loop of `build_state_url_dict`: each anchor's
lower-cased text maps to the base URL plus its `href`. -/
def extract_states : List HNode → Except PyErr (List (String × String))
  | [] => .ok []
  | a :: rest =>
      match hrefOf a with
      | none => .error .keyError
      | some path =>
          match extract_states rest with
          | .error e => .error e
          | .ok others => .ok ((pyLower (nodeText a), "https://www.nps.gov" ++ path) :: others)

/-- `build_state_url_dict`: the state-name→URL mapping, cached as a whole
under the fixed index URL. -/
def build_state_url_dict (net : String → HNode) (file : Option (List Char)) :
    Except PyErr (Json × Option (List Char) × Nat) := do
  let cacheJson ← open_cache file
  let cache_dict ← asObj cacheJson
  match getKey cache_dict ("https://www.nps.gov" ++ "/index.htm") with
  | some entry => .ok (entry, file, 0)
  | none =>
      let soup := net ("https://www.nps.gov" ++ "/index.htm")
      match findInNode (isTagClass "ul" "dropdown-menu SearchBar-keywordSearch") soup with
      | none => .error .attributeError
      | some state_list =>
          match extract_states (findAllNodes (isTag "a") (childrenOf state_list)) with
          | .error e => .error e
          | .ok pairs =>
              let state_dict : Store :=
                pairs.foldl (fun d kv => setKey d kv.1 (.str kv.2)) []
              let file2 := save_cache (.obj (setKey cache_dict
                ("https://www.nps.gov" ++ "/index.htm") (.obj state_dict)))
              .ok (.obj state_dict, file2, 1)

/-- `get_nearby_places`: the MapQuest radius search, keyed by the record's
zipcode. `api` is the oracle for `requests.get(...).json()` at a given
`origin` postal code. -/
def get_nearby_places (api : String → Json) (site_object : NationalSite)
    (file : Option (List Char)) :
    Except PyErr (Json × Option (List Char) × Nat) := do
  let cacheJson ← open_cache file
  let cache_dict ← asObj cacheJson
  let zipcode := site_object.zipcode
  match getKey cache_dict zipcode with
  | some entry => .ok (entry, file, 0)
  | none =>
      let place_dict := api zipcode
      let file2 := save_cache (.obj (setKey cache_dict zipcode place_dict))
      .ok (place_dict, file2, 1)

/-! ### The interactive loop's detail dispatch (`__main__`, lines 359-381) -/

/-- Value of an all-digit character run, or `none`. -/
def digitsOf (ds : List Char) : Option Nat :=
  match ds with
  | [] => none
  | _ => if ds.all Char.isDigit then some (digitsVal ds) else none

/-- Model of Python `int(str)`: optional surrounding whitespace, optional
sign, then decimal digits; anything else raises `ValueError`. -/
def parsePyInt (s : String) : Option Int :=
  match (pyStrip s).data with
  | '-' :: ds => (digitsOf ds).map fun n => -(n : Int)
  | '+' :: ds => (digitsOf ds).map fun n => (n : Int)
  | ds => (digitsOf ds).map fun n => (n : Int)

/-- What the inner interactive loop does with one `detail` input. -/
inductive MainAction where
  | exitLoop
  | back
  | invalidInput
  | noLocationInfo
  | searchNearby (site : NationalSite)
  | valueError
  | indexError
deriving Repr, DecidableEq

/-- The `detail` dispatch chain of the main loop: `exit`/`back` first,
then the range check against `counter`, then the zipcode-sentinel guard,
and only past all of these is `get_nearby_places` invoked (as
`searchNearby` with the selected record). -/
def dispatch_detail (detail : String) (counter : Nat)
    (sites : List NationalSite) : MainAction :=
  if detail = "exit" then .exitLoop
  else if detail = "back" then .back
  else
    match parsePyInt detail with
    | none => .valueError
    | some d =>
        if d > (counter : Int) - 1 ∨ d < 1 then .invalidInput
        else
          match sites.get? (d - 1).toNat with
          | none => .indexError
          | some site =>
              if site.zipcode = "No zipcode" then .noLocationInfo
              else .searchNearby site

/-! ### Store lemmas -/

theorem open_cache_save (j : Json) : open_cache (save_cache j) = .ok j := by
  simp [open_cache, save_cache, parseJson_encVal]

theorem getKey_setKey_self (st : Store) (k : String) (v : Json) :
    getKey (setKey st k v) k = some v := by
  induction st with
  | nil => simp [setKey, getKey]
  | cons kv rest ih =>
      obtain ⟨k', v'⟩ := kv
      rcases Decidable.em (k' = k) with h | h
      · simp [setKey, getKey, h]
      · simp [setKey, getKey, h, ih]

/-! ### Claim theorems -/

/-- C4: for every cache mapping (arbitrary nested JSON-like values, as
members of a JSON object), saving it with `save_cache` and then loading
it with `open_cache` from the same file yields a mapping equal to the
original. -/
theorem save_open_round_trip (ms : List (String × Json)) :
    open_cache (save_cache (Json.obj ms)) = Except.ok (Json.obj ms) :=
  open_cache_save (Json.obj ms)

/-- C6: `open_cache` returns the empty mapping when the cache file does
not exist, and fails fatally with `json.JSONDecodeError` (not an empty
store) when the file exists but its contents do not parse as JSON. -/
theorem open_cache_missing_and_corrupt :
    open_cache none = Except.ok (Json.obj [])
      ∧ ∀ s : List Char, parseJson s = none →
        open_cache (some s) = Except.error PyErr.jsonDecodeError := by
  refine ⟨rfl, ?_⟩
  intro s hs
  simp [open_cache, hs]

/-- Witness for C6 at a concrete corrupt file. -/
theorem open_cache_missing_and_corrupt_witness :
    parseJson ['x', 'y'] = none
      ∧ open_cache (some ['x', 'y']) = Except.error PyErr.jsonDecodeError :=
  ⟨rfl, open_cache_missing_and_corrupt.2 ['x', 'y'] rfl⟩

/-- C5: the main loop's detail dispatch invokes the nearby-places search
only for a record whose zipcode is not the `"No zipcode"` sentinel: the
zipcode guard precedes the `get_nearby_places` call. -/
theorem nearby_never_called_for_sentinel (detail : String) (counter : Nat)
    (sites : List NationalSite) (site : NationalSite)
    (h : dispatch_detail detail counter sites = .searchNearby site) :
    site.zipcode ≠ "No zipcode" := by
  unfold dispatch_detail at h
  split at h
  · simp at h
  · split at h
    · simp at h
    · split at h
      · simp at h
      · split at h
        · simp at h
        · split at h
          · simp at h
          · split at h
            · simp at h
            · rename_i hcond
              simp only [MainAction.searchNearby.injEq] at h
              subst h
              exact hcond

/-- Witness for C5: input "1" selects the first site, whose zipcode is
present, and the dispatch reaches the nearby-places call. -/
theorem nearby_never_called_for_sentinel_witness :
    dispatch_detail "1" 2 [⟨"c", "n", "a", "49931", "p"⟩]
      = MainAction.searchNearby ⟨"c", "n", "a", "49931", "p"⟩
      ∧ (⟨"c", "n", "a", "49931", "p"⟩ : NationalSite).zipcode ≠ "No zipcode" :=
  ⟨by decide, nearby_never_called_for_sentinel "1" 2 [⟨"c", "n", "a", "49931", "p"⟩]
    ⟨"c", "n", "a", "49931", "p"⟩ (by decide)⟩

theorem except_bind_ok {ε α β : Type} (a : α) (f : α → Except ε β) :
    (Except.ok a : Except ε α) >>= f = f a := rfl

/-- C1 (amended): when the `Hero-titleContainer` div is entirely absent
on a cache miss, `get_site_instance` raises `AttributeError` (the
`headers.find` attribute access is outside every `try` block); it does
not return a record built from the two header sentinels. -/
theorem hero_absent_raises (net : String → HNode) (url : String)
    (file : Option (List Char)) (cj : Json) (st : Store)
    (hoc : open_cache file = .ok cj) (hobj : asObj cj = .ok st)
    (hmiss : getKey st url = none)
    (hhd : findInNode (isTagClass "div" "Hero-titleContainer") (net url) = none) :
    get_site_instance net url file = .error .attributeError := by
  simp only [get_site_instance, hoc, except_bind_ok, hobj, hmiss, hhd]

/-- C10: when the `ParkFooter-contact` div is entirely absent on a cache
miss, `get_site_instance` raises `AttributeError` (the `footers.find`
attribute access is outside every `try` block) rather than returning a
record with the address, zipcode and phone sentinels. -/
theorem footer_absent_raises (net : String → HNode) (url : String)
    (file : Option (List Char)) (cj : Json) (st : Store)
    (hoc : open_cache file = .ok cj) (hobj : asObj cj = .ok st)
    (hmiss : getKey st url = none)
    (hft : findInNode (isTagClass "div" "ParkFooter-contact") (net url) = none) :
    get_site_instance net url file = .error .attributeError := by
  cases hhd : findInNode (isTagClass "div" "Hero-titleContainer") (net url) with
  | none => simp only [get_site_instance, hoc, except_bind_ok, hobj, hmiss, hhd]
  | some headers =>
      simp only [get_site_instance, hoc, except_bind_ok, hobj, hmiss, hhd, hft]

theorem except_bind_error {ε α β : Type} (e : ε) (f : α → Except ε β) :
    (Except.error e : Except ε α) >>= f = .error e := rfl

/-- Replaying a cache hit: when the store holds a record for the URL, the
extractor rebuilds the record from it with zero fetches and an unchanged
file. -/
theorem get_site_instance_hit (net : String → HNode) (url : String)
    (file : Option (List Char)) (cj : Json) (st : Store) (entry : Json)
    (eo : Store) (site : NationalSite)
    (hoc : open_cache file = .ok cj) (hobj : asObj cj = .ok st)
    (hk : getKey st url = some entry) (heo : asObj entry = .ok eo)
    (hc : getStrField eo "category" = .ok site.category)
    (hn : getStrField eo "name" = .ok site.name)
    (ha : getStrField eo "address" = .ok site.address)
    (hz : getStrField eo "zipcode" = .ok site.zipcode)
    (hp : getStrField eo "phone" = .ok site.phone) :
    get_site_instance net url file = .ok (site, file, 0) := by
  simp only [get_site_instance, hoc, except_bind_ok, hobj, hk, heo, hc, hn, ha, hz, hp]

/-- Any successful extractor call leaves the cache file holding a store
with a record for the URL whose five fields match the returned record. -/
theorem get_site_instance_ok_cached (net : String → HNode) (url : String)
    (file : Option (List Char)) (site : NationalSite)
    (file2 : Option (List Char)) (n : Nat)
    (h : get_site_instance net url file = .ok (site, file2, n)) :
    ∃ st entry eo, open_cache file2 = .ok (.obj st)
      ∧ getKey st url = some entry ∧ asObj entry = .ok eo
      ∧ getStrField eo "category" = .ok site.category
      ∧ getStrField eo "name" = .ok site.name
      ∧ getStrField eo "address" = .ok site.address
      ∧ getStrField eo "zipcode" = .ok site.zipcode
      ∧ getStrField eo "phone" = .ok site.phone := by
  unfold get_site_instance at h
  cases hoc : open_cache file with
  | error e => rw [hoc, except_bind_error] at h; exact absurd h (by simp)
  | ok cj =>
  rw [hoc, except_bind_ok] at h
  cases hobj : asObj cj with
  | error e => rw [hobj, except_bind_error] at h; exact absurd h (by simp)
  | ok st =>
  rw [hobj, except_bind_ok] at h
  have hcj : cj = .obj st := by
    cases cj <;> simp [asObj] at hobj
    rw [hobj]
  split at h
  · rename_i entry hk
    cases heo : asObj entry with
    | error e => rw [heo, except_bind_error] at h; exact absurd h (by simp)
    | ok eo =>
    rw [heo, except_bind_ok] at h
    cases hc : getStrField eo "category" with
    | error e => rw [hc, except_bind_error] at h; exact absurd h (by simp)
    | ok category =>
    rw [hc, except_bind_ok] at h
    cases hn : getStrField eo "name" with
    | error e => rw [hn, except_bind_error] at h; exact absurd h (by simp)
    | ok name =>
    rw [hn, except_bind_ok] at h
    cases ha : getStrField eo "address" with
    | error e => rw [ha, except_bind_error] at h; exact absurd h (by simp)
    | ok address =>
    rw [ha, except_bind_ok] at h
    cases hz : getStrField eo "zipcode" with
    | error e => rw [hz, except_bind_error] at h; exact absurd h (by simp)
    | ok zipcode =>
    rw [hz, except_bind_ok] at h
    cases hp : getStrField eo "phone" with
    | error e => rw [hp, except_bind_error] at h; exact absurd h (by simp)
    | ok phone =>
    rw [hp, except_bind_ok] at h
    simp only [Except.ok.injEq, Prod.mk.injEq] at h
    obtain ⟨hsite, hfile, -⟩ := h
    subst hfile
    refine ⟨st, entry, eo, ?_, hk, heo, ?_, ?_, ?_, ?_, ?_⟩
    · rw [hoc, hcj]
    · rw [hc, ← hsite]
    · rw [hn, ← hsite]
    · rw [ha, ← hsite]
    · rw [hz, ← hsite]
    · rw [hp, ← hsite]
  · dsimp only [] at h
    split at h
    all_goals try split at h
    all_goals
      first
      | (simp only [Except.ok.injEq, Prod.mk.injEq] at h
         obtain ⟨hsite, hfile, -⟩ := h
         subst hfile
         exact ⟨_, _, _, open_cache_save _, getKey_setKey_self _ _ _, rfl,
           by rw [← hsite]; rfl, by rw [← hsite]; rfl, by rw [← hsite]; rfl,
           by rw [← hsite]; rfl, by rw [← hsite]; rfl⟩)
      | simp at h

/-- C3: calling `get_site_instance` a second time with the same URL
returns a record with all five fields identical to the first call's, and
performs zero network fetches: it reads the record stored in the cache
under that URL by (or before) the first call. -/
theorem get_site_instance_idempotent (net : String → HNode) (url : String)
    (file file2 : Option (List Char)) (site : NationalSite) (n : Nat)
    (h : get_site_instance net url file = .ok (site, file2, n)) :
    get_site_instance net url file2 = .ok (site, file2, 0) := by
  obtain ⟨st, entry, eo, hoc, hk, heo, hc, hn, ha, hz, hp⟩ :=
    get_site_instance_ok_cached net url file site file2 n h
  exact get_site_instance_hit net url file2 (.obj st) st entry eo site
    hoc rfl hk heo hc hn ha hz hp

/-- C7: with the footer contact region present but its phone sub-field
absent, the record's phone is the sentinel and every other field is
extracted normally from its own sub-field. -/
theorem phone_missing_sentinel (net : String → HNode) (url : String)
    (file : Option (List Char)) (cj : Json) (st : Store)
    (hd ft na ca lo re zp : HNode)
    (hoc : open_cache file = .ok cj) (hobj : asObj cj = .ok st)
    (hmiss : getKey st url = none)
    (hhd : findInNode (isTagClass "div" "Hero-titleContainer") (net url) = some hd)
    (hna : findInNode (isTagClass "a" "Hero-title") hd = some na)
    (hca : findInNode (isTagClass "span" "Hero-designation") hd = some ca)
    (hft : findInNode (isTagClass "div" "ParkFooter-contact") (net url) = some ft)
    (hlo : findInNode (isTagItemprop "span" "addressLocality") ft = some lo)
    (hre : findInNode (isTagItemprop "span" "addressRegion") ft = some re)
    (hzp : findInNode (isTagItemprop "span" "postalCode") ft = some zp)
    (hph : findInNode (isTagItemprop "span" "telephone") ft = none) :
    ∃ file2, get_site_instance net url file
      = .ok (⟨pyStrip (nodeText ca), pyStrip (nodeText na),
          pyStrip (nodeText lo) ++ ", " ++ pyStrip (nodeText re),
          pyStrip (nodeText zp), "No phone"⟩, file2, 1) := by
  refine ⟨save_cache (.obj (setKey st url (.obj
    [("category", .str (pyStrip (nodeText ca))),
     ("name", .str (pyStrip (nodeText na))),
     ("address", .str (pyStrip (nodeText lo) ++ ", " ++ pyStrip (nodeText re))),
     ("zipcode", .str (pyStrip (nodeText zp))),
     ("phone", .str "No phone")]))), ?_⟩
  simp only [get_site_instance, hoc, except_bind_ok, hobj, hmiss, hhd, hna, hca, hft,
    hlo, hre, hzp, hph]

/-- One `try/except AttributeError` block of the miss path: the stripped
text of the field's element when present, the sentinel otherwise. -/
def fieldText (sentinel : String) : Option HNode → String
  | some e => pyStrip (nodeText e)
  | none => sentinel

/-- The address field: `"<locality>, <region>"` when both spans are
present, `"No address"` otherwise (the two extractions share one `try`). -/
def addressText : Option HNode → Option HNode → String
  | some lo, some re => pyStrip (nodeText lo) ++ ", " ++ pyStrip (nodeText re)
  | _, _ => "No address"

/-- On a cache miss with both containers present, the extractor succeeds
and each field of the record is its own sub-field's extraction, sentinel
on absence — independent of the other sub-fields. -/
theorem get_site_instance_miss_fields (net : String → HNode) (url : String)
    (file : Option (List Char)) (cj : Json) (st : Store) (hd ft : HNode)
    (hoc : open_cache file = .ok cj) (hobj : asObj cj = .ok st)
    (hmiss : getKey st url = none)
    (hhd : findInNode (isTagClass "div" "Hero-titleContainer") (net url) = some hd)
    (hft : findInNode (isTagClass "div" "ParkFooter-contact") (net url) = some ft) :
    ∃ file2, get_site_instance net url file = .ok
      (⟨fieldText "No category" (findInNode (isTagClass "span" "Hero-designation") hd),
        fieldText "No name" (findInNode (isTagClass "a" "Hero-title") hd),
        addressText (findInNode (isTagItemprop "span" "addressLocality") ft)
          (findInNode (isTagItemprop "span" "addressRegion") ft),
        fieldText "No zipcode" (findInNode (isTagItemprop "span" "postalCode") ft),
        fieldText "No phone" (findInNode (isTagItemprop "span" "telephone") ft)⟩,
       file2, 1) := by
  refine ⟨save_cache (.obj (setKey st url (.obj
    [("category", .str (fieldText "No category"
        (findInNode (isTagClass "span" "Hero-designation") hd))),
     ("name", .str (fieldText "No name" (findInNode (isTagClass "a" "Hero-title") hd))),
     ("address", .str (addressText (findInNode (isTagItemprop "span" "addressLocality") ft)
        (findInNode (isTagItemprop "span" "addressRegion") ft))),
     ("zipcode", .str (fieldText "No zipcode"
        (findInNode (isTagItemprop "span" "postalCode") ft))),
     ("phone", .str (fieldText "No phone"
        (findInNode (isTagItemprop "span" "telephone") ft)))]))), ?_⟩
  cases hca : findInNode (isTagClass "span" "Hero-designation") hd <;>
  cases hna : findInNode (isTagClass "a" "Hero-title") hd <;>
  cases hlo : findInNode (isTagItemprop "span" "addressLocality") ft <;>
  cases hre : findInNode (isTagItemprop "span" "addressRegion") ft <;>
  cases hzp : findInNode (isTagItemprop "span" "postalCode") ft <;>
  cases hph : findInNode (isTagItemprop "span" "telephone") ft <;>
  simp only [get_site_instance, fieldText, addressText, hoc, except_bind_ok, hobj,
    hmiss, hhd, hft, hca, hna, hlo, hre, hzp, hph]

/-- C2 (amended): on a cache miss with the two containers present and the
sub-fields in any configuration, the extraction succeeds, and whenever
the source element for a field is absent that field of the record equals
its non-empty `"No <field>"` sentinel, regardless of which other
sub-fields are present (the address falls back when either of its two
spans is missing, since both sit in one `try` block). -/
theorem absent_fields_get_sentinels (net : String → HNode) (url : String)
    (file : Option (List Char)) (cj : Json) (st : Store) (hd ft : HNode)
    (hoc : open_cache file = .ok cj) (hobj : asObj cj = .ok st)
    (hmiss : getKey st url = none)
    (hhd : findInNode (isTagClass "div" "Hero-titleContainer") (net url) = some hd)
    (hft : findInNode (isTagClass "div" "ParkFooter-contact") (net url) = some ft) :
    ∃ site file2, get_site_instance net url file = .ok (site, file2, 1)
      ∧ (findInNode (isTagClass "a" "Hero-title") hd = none →
          site.name = "No name")
      ∧ (findInNode (isTagClass "span" "Hero-designation") hd = none →
          site.category = "No category")
      ∧ (findInNode (isTagItemprop "span" "addressLocality") ft = none ∨
          findInNode (isTagItemprop "span" "addressRegion") ft = none →
          site.address = "No address")
      ∧ (findInNode (isTagItemprop "span" "postalCode") ft = none →
          site.zipcode = "No zipcode")
      ∧ (findInNode (isTagItemprop "span" "telephone") ft = none →
          site.phone = "No phone") := by
  obtain ⟨file2, heq⟩ :=
    get_site_instance_miss_fields net url file cj st hd ft hoc hobj hmiss hhd hft
  refine ⟨_, file2, heq, ?_, ?_, ?_, ?_, ?_⟩
  · intro h; rw [h]; rfl
  · intro h; rw [h]; rfl
  · rintro (h | h)
    · rw [h]; rfl
    · rw [h]
      cases findInNode (isTagItemprop "span" "addressLocality") ft <;> rfl
  · intro h; rw [h]; rfl
  · intro h; rw [h]; rfl

/-! ### Concrete fixtures for counterexamples and witnesses -/

/-- A detail page with no `Hero-titleContainer` at all. -/
def docNoHero : HNode := .elem "html" ⟨none, none, none, none⟩
  [.elem "div" ⟨some "ParkFooter-contact", none, none, none⟩
    [.elem "span" ⟨none, none, some "postalCode", none⟩ [.text "49931"]]]

/-- C1 counterexample: on a page whose header container is entirely
absent, `get_site_instance` raises `AttributeError` — it does not return
the populated sentinel record the claim describes. -/
theorem hero_absent_counterexample :
    get_site_instance (fun _ => docNoHero) "https://www.nps.gov/xxxx/index.htm" none
      = .error .attributeError := rfl

/-- Witness for C1's amended theorem at a concrete page and empty cache. -/
theorem hero_absent_raises_witness :
    get_site_instance (fun _ => docNoHero) "https://www.nps.gov/yyyy/index.htm" none
      = .error .attributeError :=
  hero_absent_raises (fun _ => docNoHero) "https://www.nps.gov/yyyy/index.htm" none
    (.obj []) [] rfl rfl rfl rfl

/-- A detail page with a header but no `ParkFooter-contact`. -/
def docNoFooter : HNode := .elem "html" ⟨none, none, none, none⟩
  [.elem "div" ⟨some "Hero-titleContainer", none, none, none⟩
    [.elem "a" ⟨some "Hero-title", none, none, none⟩ [.text "Isle Royale"]]]

/-- Witness for C10 at a concrete page and empty cache. -/
theorem footer_absent_raises_witness :
    get_site_instance (fun _ => docNoFooter) "https://www.nps.gov/isro/index.htm" none
      = .error .attributeError :=
  footer_absent_raises (fun _ => docNoFooter) "https://www.nps.gov/isro/index.htm" none
    (.obj []) [] rfl rfl rfl rfl

/-- The returned record of an extractor result, if any. -/
def record_of : Except PyErr (NationalSite × Option (List Char) × Nat) → Option NationalSite
  | .ok (s, _, _) => some s
  | .error _ => none

/-- A detail page whose `Hero-designation` span is present but empty. -/
def docEmptyCategory : HNode := .elem "html" ⟨none, none, none, none⟩
  [.elem "div" ⟨some "Hero-titleContainer", none, none, none⟩
    [.elem "a" ⟨some "Hero-title", none, none, none⟩ [.text "Isle Royale"],
     .elem "span" ⟨some "Hero-designation", none, none, none⟩ [.text ""]],
   .elem "div" ⟨some "ParkFooter-contact", none, none, none⟩
    [.elem "span" ⟨none, none, some "addressLocality", none⟩ [.text "Houghton"],
     .elem "span" ⟨none, none, some "addressRegion", none⟩ [.text "MI"],
     .elem "span" ⟨none, none, some "postalCode", none⟩ [.text "49931"],
     .elem "span" ⟨none, none, some "telephone", none⟩ [.text "(906) 482-0984"]]]

/-- C2 counterexample: a present-but-empty `Hero-designation` element
yields a record whose category is the empty string, so the five fields
are not always non-empty. -/
theorem record_field_empty_counterexample :
    (record_of (get_site_instance (fun _ => docEmptyCategory)
        "https://www.nps.gov/isro/index.htm" none)).map NationalSite.category
      = some "" := rfl

/-- A header container with the title present but no designation span. -/
def hdMixed : HNode := .elem "div" ⟨some "Hero-titleContainer", none, none, none⟩
  [.elem "a" ⟨some "Hero-title", none, none, none⟩ [.text "Isle Royale"]]

/-- A contact container with locality and phone present, but no region
span and no postal-code span. -/
def ftMixed : HNode := .elem "div" ⟨some "ParkFooter-contact", none, none, none⟩
  [.elem "span" ⟨none, none, some "addressLocality", none⟩ [.text "Houghton"],
   .elem "span" ⟨none, none, some "telephone", none⟩ [.text "(906) 482-0984"]]

/-- A detail page with a mixed configuration: some sub-fields present,
some absent. -/
def docMixedFields : HNode := .elem "html" ⟨none, none, none, none⟩ [hdMixed, ftMixed]

/-- Witness for C2's amended theorem at a concrete mixed page (name,
locality and phone present; designation, region and postal code absent)
and an empty cache. -/
theorem absent_fields_get_sentinels_witness :
    ∃ site file2, get_site_instance (fun _ => docMixedFields)
        "https://www.nps.gov/zzzz/index.htm" none = .ok (site, file2, 1)
      ∧ (findInNode (isTagClass "a" "Hero-title") hdMixed = none →
          site.name = "No name")
      ∧ (findInNode (isTagClass "span" "Hero-designation") hdMixed = none →
          site.category = "No category")
      ∧ (findInNode (isTagItemprop "span" "addressLocality") ftMixed = none ∨
          findInNode (isTagItemprop "span" "addressRegion") ftMixed = none →
          site.address = "No address")
      ∧ (findInNode (isTagItemprop "span" "postalCode") ftMixed = none →
          site.zipcode = "No zipcode")
      ∧ (findInNode (isTagItemprop "span" "telephone") ftMixed = none →
          site.phone = "No phone") :=
  absent_fields_get_sentinels (fun _ => docMixedFields)
    "https://www.nps.gov/zzzz/index.htm" none (.obj []) [] hdMixed ftMixed
    rfl rfl rfl rfl rfl

def naFix : HNode := .elem "a" ⟨some "Hero-title", none, none, none⟩ [.text "Isle Royale"]
def caFix : HNode := .elem "span" ⟨some "Hero-designation", none, none, none⟩
  [.text "National Park"]
def loFix : HNode := .elem "span" ⟨none, none, some "addressLocality", none⟩
  [.text "Houghton"]
def reFix : HNode := .elem "span" ⟨none, none, some "addressRegion", none⟩ [.text "MI"]
def zpFix : HNode := .elem "span" ⟨none, none, some "postalCode", none⟩ [.text "49931"]
def hdFix : HNode := .elem "div" ⟨some "Hero-titleContainer", none, none, none⟩
  [naFix, caFix]
def ftFix : HNode := .elem "div" ⟨some "ParkFooter-contact", none, none, none⟩
  [loFix, reFix, zpFix]

/-- A detail page whose contact region lacks only the phone sub-field. -/
def docNoPhone : HNode := .elem "html" ⟨none, none, none, none⟩ [hdFix, ftFix]

/-- Witness for C7 at a concrete page and empty cache. -/
theorem phone_missing_sentinel_witness :
    ∃ file2, get_site_instance (fun _ => docNoPhone)
        "https://www.nps.gov/isro/index.htm" none
      = .ok (⟨pyStrip (nodeText caFix), pyStrip (nodeText naFix),
          pyStrip (nodeText loFix) ++ ", " ++ pyStrip (nodeText reFix),
          pyStrip (nodeText zpFix), "No phone"⟩, file2, 1) :=
  phone_missing_sentinel (fun _ => docNoPhone) "https://www.nps.gov/isro/index.htm"
    none (.obj []) [] hdFix ftFix naFix caFix loFix reFix zpFix
    rfl rfl rfl rfl rfl rfl rfl rfl rfl rfl rfl

def phFix : HNode := .elem "span" ⟨none, none, some "telephone", none⟩
  [.text "(906) 482-0984"]
def ftFull : HNode := .elem "div" ⟨some "ParkFooter-contact", none, none, none⟩
  [loFix, reFix, zpFix, phFix]

/-- A complete detail page. -/
def docFull : HNode := .elem "html" ⟨none, none, none, none⟩ [hdFix, ftFull]

def siteFull : NationalSite :=
  ⟨"National Park", "Isle Royale", "Houghton, MI", "49931", "(906) 482-0984"⟩

def recordFull : Json := .obj [("category", .str "National Park"),
  ("name", .str "Isle Royale"), ("address", .str "Houghton, MI"),
  ("zipcode", .str "49931"), ("phone", .str "(906) 482-0984")]

def fileFull : Option (List Char) :=
  save_cache (.obj (setKey [] "https://www.nps.gov/isro/index.htm" recordFull))

/-- Witness for C3: a first call on an empty cache, then the second call
replayed from the written cache with zero fetches. -/
theorem get_site_instance_idempotent_witness :
    get_site_instance (fun _ => docFull) "https://www.nps.gov/isro/index.htm" none
      = .ok (siteFull, fileFull, 1)
      ∧ get_site_instance (fun _ => docFull) "https://www.nps.gov/isro/index.htm" fileFull
      = .ok (siteFull, fileFull, 0) :=
  ⟨rfl, get_site_instance_idempotent (fun _ => docFull)
    "https://www.nps.gov/isro/index.htm" none fileFull siteFull 1 rfl⟩

/-- The anchor hrefs of a heading list, in document order (`none` when a
heading lacks an anchor or an anchor lacks `href`). -/
def anchorPaths : List HNode → Option (List String)
  | [] => some []
  | h :: t =>
      match findInNode (isTag "a") h with
      | none => none
      | some a =>
          match hrefOf a with
          | none => none
          | some path =>
              match anchorPaths t with
              | none => none
              | some ps => some (path :: ps)

/-- The URL-building loop turns the heading list's anchor hrefs, in
order, into absolute detail URLs. -/
theorem extract_site_urls_spec (hs : List HNode) :
    ∀ (paths : List String), anchorPaths hs = some paths →
    extract_site_urls hs
      = .ok (paths.map fun p => "https://www.nps.gov" ++ p ++ "index.htm") := by
  induction hs with
  | nil =>
      intro paths h
      simp [anchorPaths] at h
      subst h
      rfl
  | cons h3 t ih =>
      intro paths h
      rw [anchorPaths] at h
      split at h
      · simp at h
      · rename_i a hfa
        split at h
        · simp at h
        · rename_i path hhr
          split at h
          · simp at h
          · rename_i ps hmt
            simp at h
            subst h
            simp [extract_site_urls, hfa, hhr, ih ps hmt]

/-- C8: on a cache miss, `get_sites_for_state` resolves the state page's
headings to detail URLs in document order — each formed as base URL ++
anchor path ++ `"index.htm"` — caches exactly that ordered list under the
state URL, and builds the site records by iterating it in the same
order. -/
theorem state_sites_in_document_order (net : String → HNode) (state_url : String)
    (file : Option (List Char)) (cj : Json) (st : Store) (ul : HNode)
    (paths : List String)
    (hoc : open_cache file = .ok cj) (hobj : asObj cj = .ok st)
    (hmiss : getKey st state_url = none)
    (hul : findInNode (isTagId "ul" "list_parks") (net state_url) = some ul)
    (hpaths : anchorPaths (findAllNodes (isTag "h3") (childrenOf ul)) = some paths) :
    get_sites_for_state net state_url file
      = Except.map (fun r => (r.1, r.2.1, 1 + r.2.2))
          (site_instances_loop net
            (paths.map fun p => "https://www.nps.gov" ++ p ++ "index.htm")
            (save_cache (Json.obj (setKey st state_url
              (Json.arr ((paths.map fun p => "https://www.nps.gov" ++ p ++ "index.htm").map
                Json.str)))))) := by
  have hex := extract_site_urls_spec _ paths hpaths
  simp only [get_sites_for_state, hoc, except_bind_ok, hobj, hmiss, hul, hex]
  cases hloop : site_instances_loop net
      (paths.map fun p => "https://www.nps.gov" ++ p ++ "index.htm")
      (save_cache (Json.obj (setKey st state_url
        (Json.arr ((paths.map fun p => "https://www.nps.gov" ++ p ++ "index.htm").map
          Json.str))))) with
  | error e => simp [Except.map]
  | ok r => obtain ⟨sites, f3, m⟩ := r; simp [Except.map]

def h3A : HNode := .elem "h3" ⟨none, none, none, none⟩
  [.elem "a" ⟨none, none, none, some "/alfa/"⟩ [.text "Alfa"]]
def h3B : HNode := .elem "h3" ⟨none, none, none, none⟩
  [.elem "a" ⟨none, none, none, some "/bravo/"⟩ [.text "Bravo"]]
def h3C : HNode := .elem "h3" ⟨none, none, none, none⟩
  [.elem "a" ⟨none, none, none, some "/charlie/"⟩ [.text "Charlie"]]

/-- A state page listing three sites, in document order A, B, C. -/
def docState : HNode := .elem "html" ⟨none, none, none, none⟩
  [.elem "ul" ⟨none, some "list_parks", none, none⟩ [h3A, h3B, h3C]]

def netState : String → HNode := fun u =>
  if u = "https://www.nps.gov/state/mi/index.htm" then docState else docFull

/-- Witness for C8 on the three-heading fixture. -/
theorem state_sites_in_document_order_witness :
    get_sites_for_state netState "https://www.nps.gov/state/mi/index.htm" none
      = Except.map (fun r => (r.1, r.2.1, 1 + r.2.2))
          (site_instances_loop netState
            (["/alfa/", "/bravo/", "/charlie/"].map
              fun p => "https://www.nps.gov" ++ p ++ "index.htm")
            (save_cache (Json.obj (setKey [] "https://www.nps.gov/state/mi/index.htm"
              (Json.arr ((["/alfa/", "/bravo/", "/charlie/"].map
                fun p => "https://www.nps.gov" ++ p ++ "index.htm").map Json.str)))))) :=
  state_sites_in_document_order netState "https://www.nps.gov/state/mi/index.htm" none
    (.obj []) [] (.elem "ul" ⟨none, some "list_parks", none, none⟩ [h3A, h3B, h3C])
    ["/alfa/", "/bravo/", "/charlie/"] rfl rfl rfl rfl rfl

theorem getKey_setKey_preserve (st : Store) (k k' : String) (v : Json)
    (h : (getKey st k).isSome) : (getKey (setKey st k' v) k).isSome := by
  induction st with
  | nil => simp [getKey] at h
  | cons kv rest ih =>
      obtain ⟨k0, v0⟩ := kv
      rcases Decidable.em (k0 = k') with he | he
      · subst he
        simp only [setKey, if_pos rfl]
        rcases Decidable.em (k0 = k) with he2 | he2
        · simp [getKey, he2]
        · simp [getKey, he2] at h ⊢
          exact h
      · simp only [setKey, if_neg he]
        rcases Decidable.em (k0 = k) with he2 | he2
        · simp [getKey, he2]
        · simp [getKey, he2] at h ⊢
          exact ih h

/-- `get_site_instance` either leaves the file unchanged or overwrites it
with the full store extended at its own URL. -/
theorem get_site_instance_file_cases (net : String → HNode) (url : String)
    (file : Option (List Char)) (site : NationalSite)
    (file2 : Option (List Char)) (n : Nat)
    (h : get_site_instance net url file = .ok (site, file2, n)) :
    file2 = file
      ∨ ∃ st record, open_cache file = .ok (.obj st)
          ∧ file2 = save_cache (.obj (setKey st url record)) := by
  unfold get_site_instance at h
  cases hoc : open_cache file with
  | error e => rw [hoc, except_bind_error] at h; exact absurd h (by simp)
  | ok cj =>
  rw [hoc, except_bind_ok] at h
  cases hobj : asObj cj with
  | error e => rw [hobj, except_bind_error] at h; exact absurd h (by simp)
  | ok st =>
  rw [hobj, except_bind_ok] at h
  have hcj : cj = .obj st := by
    cases cj <;> simp [asObj] at hobj
    rw [hobj]
  split at h
  · left
    rename_i entry hk
    cases heo : asObj entry with
    | error e => rw [heo, except_bind_error] at h; exact absurd h (by simp)
    | ok eo =>
    rw [heo, except_bind_ok] at h
    cases hc : getStrField eo "category" with
    | error e => rw [hc, except_bind_error] at h; exact absurd h (by simp)
    | ok category =>
    rw [hc, except_bind_ok] at h
    cases hn : getStrField eo "name" with
    | error e => rw [hn, except_bind_error] at h; exact absurd h (by simp)
    | ok name =>
    rw [hn, except_bind_ok] at h
    cases ha : getStrField eo "address" with
    | error e => rw [ha, except_bind_error] at h; exact absurd h (by simp)
    | ok address =>
    rw [ha, except_bind_ok] at h
    cases hz : getStrField eo "zipcode" with
    | error e => rw [hz, except_bind_error] at h; exact absurd h (by simp)
    | ok zipcode =>
    rw [hz, except_bind_ok] at h
    cases hp : getStrField eo "phone" with
    | error e => rw [hp, except_bind_error] at h; exact absurd h (by simp)
    | ok phone =>
    rw [hp, except_bind_ok] at h
    simp only [Except.ok.injEq, Prod.mk.injEq] at h
    exact h.2.1.symm
  · dsimp only [] at h
    split at h
    all_goals try split at h
    all_goals try (simp at h; done)
    all_goals
      simp only [Except.ok.injEq, Prod.mk.injEq] at h
      obtain ⟨hsite, hfile, -⟩ := h
      subst hfile
      right
      rw [hcj] at hoc
      exact ⟨st, _, by rw [hcj], rfl⟩

/-- The per-URL loop of `get_sites_for_state` never drops a key that the
cache file already holds. -/
theorem site_instances_loop_preserves (net : String → HNode) (urls : List String) :
    ∀ (file file3 : Option (List Char)) (sites : List NationalSite) (m : Nat)
    (st : Store) (k : String),
    site_instances_loop net urls file = .ok (sites, file3, m) →
    open_cache file = .ok (.obj st) → (getKey st k).isSome →
    ∃ st3, open_cache file3 = .ok (.obj st3) ∧ (getKey st3 k).isSome := by
  induction urls with
  | nil =>
      intro file file3 sites m st k h hoc hk
      simp only [site_instances_loop, Except.ok.injEq, Prod.mk.injEq] at h
      obtain ⟨-, hf, -⟩ := h
      exact ⟨st, by rw [← hf, hoc], hk⟩
  | cons url urls ih =>
      intro file file3 sites m st k h hoc hk
      cases hsi : get_site_instance net url file with
      | error e => rw [site_instances_loop, hsi] at h; exact absurd h (by simp)
      | ok r =>
          obtain ⟨site1, file1, n1⟩ := r
          rw [site_instances_loop, hsi] at h
          dsimp only [] at h
          cases hloop : site_instances_loop net urls file1 with
          | error e => rw [hloop] at h; exact absurd h (by simp)
          | ok r2 =>
              obtain ⟨sites2, file4, m2⟩ := r2
              rw [hloop] at h
              simp only [Except.ok.injEq, Prod.mk.injEq] at h
              obtain ⟨-, hf, -⟩ := h
              subst hf
              rcases get_site_instance_file_cases net url file site1 file1 n1 hsi with
                heq | ⟨st', record, hoc', hsave⟩
              · subst heq
                exact ih _ _ _ _ _ k hloop hoc hk
              · have hst' : st' = st := by
                  rw [hoc] at hoc'
                  simp only [Except.ok.injEq, Json.obj.injEq] at hoc'
                  exact hoc'.symm
                subst hst' hsave
                exact ih _ _ _ _ _ k hloop (open_cache_save _)
                  (getKey_setKey_preserve _ k url record hk)

/-- A successful `build_state_url_dict` leaves the cache file holding the
returned mapping under the fixed index URL. -/
theorem build_state_url_dict_persists (net : String → HNode)
    (file : Option (List Char)) (d : Json) (file2 : Option (List Char)) (n : Nat)
    (h : build_state_url_dict net file = .ok (d, file2, n)) :
    ∃ st2, open_cache file2 = .ok (.obj st2)
      ∧ getKey st2 ("https://www.nps.gov" ++ "/index.htm") = some d := by
  unfold build_state_url_dict at h
  cases hoc : open_cache file with
  | error e => rw [hoc, except_bind_error] at h; exact absurd h (by simp)
  | ok cj =>
  rw [hoc, except_bind_ok] at h
  cases hobj : asObj cj with
  | error e => rw [hobj, except_bind_error] at h; exact absurd h (by simp)
  | ok st =>
  rw [hobj, except_bind_ok] at h
  have hcj : cj = .obj st := by
    cases cj <;> simp [asObj] at hobj
    rw [hobj]
  split at h
  · rename_i entry hk
    simp only [Except.ok.injEq, Prod.mk.injEq] at h
    obtain ⟨hd, hf, -⟩ := h
    subst hd hf
    exact ⟨st, by rw [hoc, hcj], hk⟩
  · dsimp only [] at h
    split at h
    all_goals try split at h
    all_goals
      first
      | (simp only [Except.ok.injEq, Prod.mk.injEq] at h
         obtain ⟨hd, hf, -⟩ := h
         subst hd hf
         exact ⟨_, open_cache_save _, getKey_setKey_self _ _ _⟩)
      | simp at h

/-- A successful `get_nearby_places` leaves the cache file holding the
returned result under the record's zipcode. -/
theorem get_nearby_places_persists (api : String → Json)
    (site_object : NationalSite) (file : Option (List Char)) (pd : Json)
    (file2 : Option (List Char)) (n : Nat)
    (h : get_nearby_places api site_object file = .ok (pd, file2, n)) :
    ∃ st2, open_cache file2 = .ok (.obj st2)
      ∧ getKey st2 site_object.zipcode = some pd := by
  unfold get_nearby_places at h
  cases hoc : open_cache file with
  | error e => rw [hoc, except_bind_error] at h; exact absurd h (by simp)
  | ok cj =>
  rw [hoc, except_bind_ok] at h
  cases hobj : asObj cj with
  | error e => rw [hobj, except_bind_error] at h; exact absurd h (by simp)
  | ok st =>
  rw [hobj, except_bind_ok] at h
  have hcj : cj = .obj st := by
    cases cj <;> simp [asObj] at hobj
    rw [hobj]
  dsimp only [] at h
  split at h
  · rename_i entry hk
    simp only [Except.ok.injEq, Prod.mk.injEq] at h
    obtain ⟨hd, hf, -⟩ := h
    subst hd hf
    exact ⟨st, by rw [hoc, hcj], hk⟩
  · simp only [Except.ok.injEq, Prod.mk.injEq] at h
    obtain ⟨hd, hf, -⟩ := h
    subst hd hf
    exact ⟨_, open_cache_save _, getKey_setKey_self _ _ _⟩

/-- A successful `get_sites_for_state` leaves the cache file holding a
store in which the state URL is still bound. -/
theorem get_sites_for_state_persists (net : String → HNode) (state_url : String)
    (file : Option (List Char)) (sites : List NationalSite)
    (file2 : Option (List Char)) (n : Nat)
    (h : get_sites_for_state net state_url file = .ok (sites, file2, n)) :
    ∃ st2 v, open_cache file2 = .ok (.obj st2) ∧ getKey st2 state_url = some v := by
  unfold get_sites_for_state at h
  cases hoc : open_cache file with
  | error e => rw [hoc, except_bind_error] at h; exact absurd h (by simp)
  | ok cj =>
  rw [hoc, except_bind_ok] at h
  cases hobj : asObj cj with
  | error e => rw [hobj, except_bind_error] at h; exact absurd h (by simp)
  | ok st =>
  rw [hobj, except_bind_ok] at h
  have hcj : cj = .obj st := by
    cases cj <;> simp [asObj] at hobj
    rw [hobj]
  split at h
  · rename_i entry hk
    cases hurls : asStrList entry with
    | error e => rw [hurls, except_bind_error] at h; exact absurd h (by simp)
    | ok site_urls =>
        rw [hurls, except_bind_ok] at h
        obtain ⟨st3, hoc3, hk3⟩ := site_instances_loop_preserves net site_urls
          file file2 sites n st state_url h (by rw [hcj] at hoc; exact hoc)
          (by simp [hk])
        obtain ⟨v, hv⟩ := Option.isSome_iff_exists.mp hk3
        exact ⟨st3, v, hoc3, hv⟩
  · dsimp only [] at h
    split at h
    · simp at h
    · split at h
      · simp at h
      · rename_i site_urls hex
        cases hloop : site_instances_loop net site_urls
            (save_cache (Json.obj (setKey st state_url
              (Json.arr (site_urls.map Json.str))))) with
        | error e => rw [hloop] at h; exact absurd h (by simp)
        | ok r =>
            obtain ⟨sites2, file4, m2⟩ := r
            rw [hloop] at h
            simp only [Except.ok.injEq, Prod.mk.injEq] at h
            obtain ⟨-, hf, -⟩ := h
            subst hf
            obtain ⟨st3, hoc3, hk3⟩ := site_instances_loop_preserves net site_urls
              _ _ sites2 m2 (setKey st state_url (Json.arr (site_urls.map Json.str)))
              state_url hloop (open_cache_save _)
              (by simp [getKey_setKey_self])
            obtain ⟨v, hv⟩ := Option.isSome_iff_exists.mp hk3
            exact ⟨st3, v, hoc3, hv⟩

/-- C9: none of the four resolvers returns with an unpersisted in-memory
mutation: on every successful call the cache file afterwards parses to a
full store that contains the resolver's key — with the value it resolved
(`build_state_url_dict`, `get_nearby_places`), the record it returned
(`get_site_instance`), or a binding for the state URL surviving the
per-site writes that follow it (`get_sites_for_state`). -/
theorem cache_mutations_persisted :
    (∀ (net : String → HNode) (file : Option (List Char)) (d : Json)
        (file2 : Option (List Char)) (n : Nat),
      build_state_url_dict net file = .ok (d, file2, n) →
      ∃ st2, open_cache file2 = .ok (.obj st2)
        ∧ getKey st2 ("https://www.nps.gov" ++ "/index.htm") = some d)
    ∧ (∀ (net : String → HNode) (url : String) (file : Option (List Char))
        (site : NationalSite) (file2 : Option (List Char)) (n : Nat),
      get_site_instance net url file = .ok (site, file2, n) →
      ∃ st2 entry, open_cache file2 = .ok (.obj st2) ∧ getKey st2 url = some entry)
    ∧ (∀ (net : String → HNode) (state_url : String) (file : Option (List Char))
        (sites : List NationalSite) (file2 : Option (List Char)) (n : Nat),
      get_sites_for_state net state_url file = .ok (sites, file2, n) →
      ∃ st2 v, open_cache file2 = .ok (.obj st2) ∧ getKey st2 state_url = some v)
    ∧ (∀ (api : String → Json) (site_object : NationalSite)
        (file : Option (List Char)) (pd : Json) (file2 : Option (List Char)) (n : Nat),
      get_nearby_places api site_object file = .ok (pd, file2, n) →
      ∃ st2, open_cache file2 = .ok (.obj st2)
        ∧ getKey st2 site_object.zipcode = some pd) := by
  refine ⟨build_state_url_dict_persists, ?_, get_sites_for_state_persists,
    get_nearby_places_persists⟩
  intro net url file site file2 n h
  obtain ⟨st, entry, eo, hoc, hk, -⟩ :=
    get_site_instance_ok_cached net url file site file2 n h
  exact ⟨st, entry, hoc, hk⟩

/-- A one-state index page. -/
def docIndex : HNode := .elem "html" ⟨none, none, none, none⟩
  [.elem "ul" ⟨some "dropdown-menu SearchBar-keywordSearch", none, none, none⟩
    [.elem "a" ⟨none, none, none, some "/state/mi/index.htm"⟩ [.text "Michigan"]]]

/-- A cache file that already holds an empty URL list for one state URL. -/
def fileStateHit : Option (List Char) :=
  save_cache (.obj [("https://www.nps.gov/state/mi/index.htm", .arr [])])

/-- Witness for C9: each of the four resolvers applied at a concrete
input with its success hypothesis discharged by computation. -/
theorem cache_mutations_persisted_witness :
    (∃ st2, open_cache (save_cache (.obj (setKey []
          ("https://www.nps.gov" ++ "/index.htm")
          (.obj [("michigan", .str ("https://www.nps.gov" ++ "/state/mi/index.htm"))]))))
        = .ok (.obj st2)
      ∧ getKey st2 ("https://www.nps.gov" ++ "/index.htm")
        = some (.obj [("michigan", .str ("https://www.nps.gov" ++ "/state/mi/index.htm"))]))
    ∧ (∃ st2 entry, open_cache fileFull = .ok (.obj st2)
        ∧ getKey st2 "https://www.nps.gov/isro/index.htm" = some entry)
    ∧ (∃ st2 v, open_cache fileStateHit = .ok (.obj st2)
        ∧ getKey st2 "https://www.nps.gov/state/mi/index.htm" = some v)
    ∧ (∃ st2, open_cache (save_cache (.obj (setKey [] "49931" .null)))
        = .ok (.obj st2) ∧ getKey st2 "49931" = some .null) :=
  ⟨cache_mutations_persisted.1 (fun _ => docIndex) none
      (.obj [("michigan", .str ("https://www.nps.gov" ++ "/state/mi/index.htm"))])
      (save_cache (.obj (setKey [] ("https://www.nps.gov" ++ "/index.htm")
        (.obj [("michigan", .str ("https://www.nps.gov" ++ "/state/mi/index.htm"))])))) 1 rfl,
   cache_mutations_persisted.2.1 (fun _ => docFull) "https://www.nps.gov/isro/index.htm"
      none siteFull fileFull 1 rfl,
   cache_mutations_persisted.2.2.1 (fun _ => docFull)
      "https://www.nps.gov/state/mi/index.htm" fileStateHit [] fileStateHit 0 rfl,
   cache_mutations_persisted.2.2.2 (fun _ => Json.null) siteFull none Json.null
      (save_cache (.obj (setKey [] "49931" .null))) 1 rfl⟩
